import Mathlib

/-!
# The topology exporter of `txc1.cc` / `txc2.cc`

The two source files carry the same exporter: the class `XMLWriter`, the helpers `replace` and
`quote`, and the traversal `dumpProperties` / `dumpComponent` (`Txc1::dump` in `txc1.cc`).
Line numbers in the comments refer to `src/tictoc/txc2.cc`.

Conventions of the embedding.

* A C++ `char` is a Lean `Char`; a `std::string` is a Lean `String` and may hold the character
  `NUL` anywhere.  A `const char *` is modelled by the characters in front of its terminator.
  `c_str` gives the characters a C-string reader sees of a `std::string`.
* The output stream is the text written to it so far.
* `ASSERT` and `std::string::substr` can throw: writer operations return `Except`.  Whether
  `ASSERT` is compiled in depends on the build; the argument `NDEBUG` of the writer operations
  says whether the macro `NDEBUG` is defined.
* The traversal never reads the writer and the writer methods return nothing, so the traversal
  is embedded as the list of writer calls it issues, in program order (`XMLCall`), and
  `XMLWriter.run` performs such a list on a writer state.
* Pointers to modules are compared by address in the source; a module carries its address as
  `id`, and `getParentModule()` is the address stored in `parentModule`.
-/

namespace TopologyExporter

/-! ## Strings -/

/-- The terminator of a C string. -/
def NUL : Char := Char.ofNat 0

/-- The characters that a reader of `str.c_str()` sees: those in front of the first `NUL`. -/
def c_str (str : String) : List Char :=
  str.data.takeWhile (fun c => decide (c ≠ NUL))

/-- The library function `strchr(s, c)` on the characters of a C string, for `c` other than the
terminator: the rest of the string from the first occurrence of `c` on, or the null pointer. -/
def strchr : List Char → Char → Option (List Char)
  | [], _ => none
  | x :: s, c => if x = c then some (x :: s) else strchr s c

/-- The `switch` of `XMLWriter::xmlquote` (lines 78-84): the text written for one character. -/
def xmlquoteChar (c : Char) : String :=
  if c = '<' then "&lt;"
  else if c = '>' then "&gt;"
  else if c = '"' then "&quot;"
  else if c = '&' then "&amp;"
  else String.singleton c

/-- The `for` loop of `XMLWriter::xmlquote` (lines 76-85) over the characters still to be read,
with the content of the string stream as accumulator. -/
def xmlquoteLoop : List Char → String → String
  | [], out => out
  | c :: s, out => xmlquoteLoop s (out ++ xmlquoteChar c)

/-- The method `XMLWriter::xmlquote` (lines 71-87). -/
def xmlquote (str : String) : String :=
  if (strchr (c_str str) '<').isNone && (strchr (c_str str) '>').isNone
      && (strchr (c_str str) '"').isNone && (strchr (c_str str) '&').isNone then
    str
  else
    xmlquoteLoop (c_str str) ""

/-- The function `replace` (lines 102-104). -/
def replace (orig what replacement : String) : String :=
  if orig = what then replacement else orig

/-- The method `Txc2::quote` (lines 105-110), `Txc1::quote` in `txc1.cc`. -/
def quote (propertyValue : String) : String :=
  if (strchr propertyValue.data ',').isNone && (strchr propertyValue.data ';').isNone then
    propertyValue
  else
    "\"" ++ propertyValue ++ "\""

/-! ## The writer -/

/-- The two ways a writer operation can throw. -/
inductive WriterError where
  | assertion
  | outOfRange
  deriving DecidableEq, Repr

/-- The state of an `XMLWriter` (lines 24-27); `out` is the text written to the stream. -/
structure XMLWriter where
  indent : String
  out : String
  tagOpen : Bool
  deriving DecidableEq, Repr

namespace XMLWriter

/-- The constructor (lines 30-32) on a stream that already holds `out`. -/
def ctor (out : String) : XMLWriter :=
  { indent := "", out := out, tagOpen := false }

/-- The method `openTag` (lines 34-40). -/
def openTag (xml : XMLWriter) (tagName : String) : XMLWriter :=
  let out := if xml.tagOpen then xml.out ++ ">\n" else xml.out
  { indent := xml.indent ++ "    "
    out := out ++ xml.indent ++ "<" ++ tagName
    tagOpen := true }

/-- A statement of a method body: the state it leads to, or the exception it throws.  A
statement that throws has not changed the object. -/
abbrev Stmt := XMLWriter → Except WriterError XMLWriter

/-- How a method call ends: the writer object as the call leaves it, and the exception if the
call has thrown one. -/
structure Outcome where
  xml : XMLWriter
  thrown : Option WriterError
  deriving DecidableEq, Repr

/-- The statements of a method body performed in order.  A statement that throws ends the
call; the object is then as the statements in front of it have left it. -/
def execStmts : List Stmt → XMLWriter → Outcome
  | [], xml => { xml := xml, thrown := none }
  | stmt :: rest, xml =>
    match stmt xml with
    | .ok xml1 => execStmts rest xml1
    | .error e => { xml := xml, thrown := some e }

/-- What the caller of a method gets: the new state, or the exception. -/
def Outcome.result (o : Outcome) : Except WriterError XMLWriter :=
  match o.thrown with
  | none => .ok o.xml
  | some e => .error e

/-- Modelled from the spec: the macro `ASSERT` of the simulation library, which is not in the
repository.  The specification calls a violated precondition "fatal in debug builds": in a
build without `NDEBUG` a condition that does not hold throws, in a build with `NDEBUG` the
macro is empty.  `NDEBUG` says whether the exporter is built with it. -/
def ASSERT (NDEBUG : Bool) (expr : XMLWriter → Bool) : Stmt :=
  fun xml => if NDEBUG || expr xml then .ok xml else .error .assertion

/-- The body of `writeAttr` for a textual value (lines 43-44, and 48-49 for the other
overload): the assertion, then the write. -/
def writeAttrBody (NDEBUG : Bool) (attrName value : String) : List Stmt :=
  [ASSERT NDEBUG (fun xml => xml.tagOpen),
   fun xml =>
    .ok { xml with out := xml.out ++ " " ++ attrName ++ "=\"" ++ xmlquote value ++ "\"" }]

/-- The method `writeAttr` for a textual value (lines 42-50, both overloads), with the object
as the call leaves it. -/
def writeAttrOutcome (xml : XMLWriter) (NDEBUG : Bool) (attrName value : String) : Outcome :=
  execStmts (writeAttrBody NDEBUG attrName value) xml

/-- The method `writeAttr` for a textual value (lines 42-50, both overloads). -/
def writeAttr (xml : XMLWriter) (NDEBUG : Bool) (attrName value : String) :
    Except WriterError XMLWriter :=
  (xml.writeAttrOutcome NDEBUG attrName value).result

/-- The method `writeAttr` for an `int` (lines 52-55). -/
def writeAttrInt (xml : XMLWriter) (NDEBUG : Bool) (attrName : String) (value : Int) :
    Except WriterError XMLWriter :=
  (execStmts
    [ASSERT NDEBUG (fun xml => xml.tagOpen),
     fun xml =>
      .ok { xml with out := xml.out ++ " " ++ attrName ++ "=\"" ++ toString value ++ "\"" }]
    xml).result

/-- The method `writeAttr` for a `bool` (lines 57-60). -/
def writeAttrBool (xml : XMLWriter) (NDEBUG : Bool) (attrName : String) (value : Bool) :
    Except WriterError XMLWriter :=
  (execStmts
    [ASSERT NDEBUG (fun xml => xml.tagOpen),
     fun xml =>
      .ok { xml with
        out := xml.out ++ " " ++ attrName ++ "=\"" ++ (if value then "true" else "false")
          ++ "\"" }]
    xml).result

/-- The method `closeTag` (lines 62-69); `substr(4)` throws when fewer than four characters
are there. -/
def closeTag (xml : XMLWriter) (tagName : String) : Except WriterError XMLWriter :=
  if xml.indent.length < 4 then
    .error .outOfRange
  else
    let indent : String := ⟨xml.indent.data.drop 4⟩
    let out := if xml.tagOpen then xml.out ++ "/>\n" else xml.out ++ indent ++ "</" ++ tagName ++ ">\n"
    .ok { indent := indent, out := out, tagOpen := false }

end XMLWriter

/-- One call of a writer method by the traversal. -/
inductive XMLCall where
  | openTag (tagName : String)
  | writeAttr (attrName value : String)
  | closeTag (tagName : String)
  deriving DecidableEq, Repr

/-- The effect of one call on the writer, in a build with or without `NDEBUG`. -/
def XMLWriter.step (NDEBUG : Bool) (xml : XMLWriter) : XMLCall → Except WriterError XMLWriter
  | .openTag tagName => .ok (xml.openTag tagName)
  | .writeAttr attrName value => xml.writeAttr NDEBUG attrName value
  | .closeTag tagName => xml.closeTag tagName

/-- The effect of a sequence of calls; the first call that throws ends the run. -/
def XMLWriter.run (NDEBUG : Bool) : List XMLCall → XMLWriter → Except WriterError XMLWriter
  | [], xml => .ok xml
  | c :: cs, xml =>
    match xml.step NDEBUG c with
    | .ok xml1 => XMLWriter.run NDEBUG cs xml1
    | .error e => .error e

/-! ## The component graph, as far as the exporter reads it -/

/-- A `cProperty`: `getFullName()`, `getKeys()`, and for a key the values `getValue(key, 0)`,
..., `getValue(key, getNumValues(key) - 1)`.  A null key pointer is the empty key: the test
`key && key[0]` of line 124 does not tell them apart. -/
structure cProperty where
  fullName : String
  keys : List String
  values : String → List String

/-- A `cPar`: `getFullName()`, `cPar::getTypeName(getType())`, `str()`, `getProperties()`. -/
structure cPar where
  fullName : String
  typeName : String
  str : String
  properties : List cProperty

/-- A `cChannel`, a component that is not a module. -/
structure cChannel where
  fullName : String
  nedTypeName : String
  params : List cPar
  properties : List cProperty

/-- Modelled from the spec: the enumeration `cGate::Type` of the simulation library, whose
declaration is not in the repository ("direction type (INPUT, OUTPUT, or INOUT)"). -/
inductive GateType where
  | INPUT
  | OUTPUT
  | INOUT
  deriving DecidableEq, Repr

/-- Modelled from the spec: the library function `cGate::getTypeName`, not in the repository;
the end-to-end scenario of the spec shows the names of the first two directions. -/
def GateType.getTypeName : GateType → String
  | .INPUT => "input"
  | .OUTPUT => "output"
  | .INOUT => "inout"

/-- What the exporter reads of a module it reaches through a gate: its address, the address
`getParentModule()` returns (if not null), `getFullName()` and `getFullPath()`. -/
structure ModuleRef where
  id : Nat
  parentModule : Option Nat
  fullName : String
  fullPath : String
  deriving DecidableEq, Repr

/-- What the exporter reads of the gate `getNextGate()` points to: `getFullName()` and
`getOwnerModule()`. -/
structure GateRef where
  fullName : String
  ownerModule : ModuleRef
  deriving DecidableEq, Repr

/-- A `cGate`; `nextGate` and `channel` are `none` for a null pointer. -/
structure cGate where
  fullName : String
  type : GateType
  properties : List cProperty
  nextGate : Option GateRef
  channel : Option cChannel

/-- A `cModule` with the modules its `SubmoduleIterator` visits, in that order. -/
inductive cModule where
  | mk (id : Nat) (parentModule : Option Nat) (fullName fullPath nedTypeName : String)
      (params : List cPar) (properties : List cProperty) (gates : List cGate)
      (submodules : List cModule)

namespace cModule

/-- The address of the module. -/
def id : cModule → Nat
  | .mk i _ _ _ _ _ _ _ _ => i

/-- The result of `getParentModule()`. -/
def parentModule : cModule → Option Nat
  | .mk _ p _ _ _ _ _ _ _ => p

/-- The result of `getFullName()`. -/
def fullName : cModule → String
  | .mk _ _ n _ _ _ _ _ _ => n

/-- The result of `getFullPath()`. -/
def fullPath : cModule → String
  | .mk _ _ _ p _ _ _ _ _ => p

/-- The result of `getNedTypeName()`. -/
def nedTypeName : cModule → String
  | .mk _ _ _ _ t _ _ _ _ => t

/-- The parameters `par(0)`, ..., `par(getNumParams() - 1)`. -/
def params : cModule → List cPar
  | .mk _ _ _ _ _ ps _ _ _ => ps

/-- The result of `getProperties()`. -/
def properties : cModule → List cProperty
  | .mk _ _ _ _ _ _ ps _ _ => ps

/-- The gates a `GateIterator` visits. -/
def gates : cModule → List cGate
  | .mk _ _ _ _ _ _ _ gs _ => gs

/-- The modules a `SubmoduleIterator` visits. -/
def submodules : cModule → List cModule
  | .mk _ _ _ _ _ _ _ _ ss => ss

end cModule

/-- A `cComponent *`: a module or a channel. -/
inductive cComponent where
  | module (mod : cModule)
  | channel (ch : cChannel)

/-! ## The traversal -/

/-- The inner `for` of `dumpProperties` (lines 126-127) at index `v`, over the values still to
be appended; `value` is the string assembled so far. -/
def valuesLoop : Nat → List String → String → String
  | _, [], value => value
  | v, x :: rest, value =>
    valuesLoop (v + 1) rest (value ++ ((if v = 0 then "" else ",") ++ quote x))

/-- The `for` over the keys of `dumpProperties` (lines 120-128) at index `k`, over the keys
still to be visited. -/
def keysLoop (prop : cProperty) : Nat → List String → String → String
  | _, [], value => value
  | k, key :: rest, value =>
    let value1 := if k ≠ 0 then value ++ ";" else value
    let value2 := if key ≠ "" then value1 ++ (key ++ "=") else value1
    keysLoop prop (k + 1) rest (valuesLoop 0 (prop.values key) value2)

/-- The string `value` that `dumpProperties` has assembled at line 129. -/
def propertyValue (prop : cProperty) : String :=
  keysLoop prop 0 prop.keys ""

/-- The method `dumpProperties` (lines 113-132): the writer calls it issues. -/
def dumpProperties : List cProperty → List XMLCall
  | [] => []
  | prop :: rest =>
    [.openTag "property", .writeAttr "name" prop.fullName,
      .writeAttr "value" (propertyValue prop), .closeTag "property"]
    ++ dumpProperties rest

/-- The `for` over the parameters in `dumpComponent` (lines 144-152). -/
def dumpParams : List cPar → List XMLCall
  | [] => []
  | p :: rest =>
    [.openTag "param", .writeAttr "name" p.fullName,
      .writeAttr "type" (replace p.typeName "long" "int"), .writeAttr "value" p.str]
    ++ dumpProperties p.properties ++ [.closeTag "param"] ++ dumpParams rest

/-- The `if` of lines 141-154 of `dumpComponent`. -/
def dumpParameters (params : List cPar) (properties : List cProperty) : List XMLCall :=
  if params.length > 0 ∨ properties.length > 0 then
    [.openTag "parameters"] ++ dumpProperties properties ++ dumpParams params
      ++ [.closeTag "parameters"]
  else
    []

/-- The body of `dumpComponent` around the part for modules: lines 137-154 and 214, with the
calls of lines 156-213 passed in. -/
def dumpComponentWith (tagName fullName nedTypeName : String) (params : List cPar)
    (properties : List cProperty) (modulePart : List XMLCall) : List XMLCall :=
  [.openTag tagName, .writeAttr "name" fullName, .writeAttr "type" nedTypeName]
    ++ dumpParameters params properties ++ modulePart ++ [.closeTag tagName]

/-- The method `dumpComponent` on a channel: a channel is neither the system module nor a
module, so line 136 chooses "channel" and the `if` of line 156 is skipped. -/
def dumpChannel (ch : cChannel) : List XMLCall :=
  dumpComponentWith "channel" ch.fullName ch.nedTypeName ch.params ch.properties []

/-- The `for` over the gates in `dumpComponent` (lines 161-170). -/
def dumpGateLoop : List cGate → List XMLCall
  | [] => []
  | gate :: rest =>
    [.openTag "gate", .writeAttr "name" gate.fullName,
      .writeAttr "type" gate.type.getTypeName]
    ++ dumpProperties gate.properties ++ [.closeTag "gate"] ++ dumpGateLoop rest

/-- The `if` of lines 159-172 of `dumpComponent`. -/
def dumpGates (gates : List cGate) : List XMLCall :=
  if !gates.isEmpty then [.openTag "gates"] ++ dumpGateLoop gates ++ [.closeTag "gates"] else []

/-- The attribute written for the module at one end of a connection (lines 191-196 with
"src-module", lines 198-203 with "dest-module"); `mod` is the address of the module being
dumped. -/
def moduleAttr (attrName : String) (mod id : Nat) (parentModule : Option Nat)
    (fullName fullPath : String) : List XMLCall :=
  if id = mod then []
  else if parentModule = some mod then [.writeAttr attrName fullName]
  else [.writeAttr attrName fullPath]

/-- The body of the `if` of line 188 (lines 189-208): one connection, from the gate `srcgate`
of `srcmod` to `destgate`, written while the module `mod` is dumped. -/
def dumpConnection (mod srcmod : cModule) (srcgate : cGate) (destgate : GateRef) :
    List XMLCall :=
  let destmod := destgate.ownerModule
  [.openTag "connection"]
    ++ moduleAttr "src-module" mod.id srcmod.id srcmod.parentModule srcmod.fullName
        srcmod.fullPath
    ++ [.writeAttr "src-gate" srcgate.fullName]
    ++ moduleAttr "dest-module" mod.id destmod.id destmod.parentModule destmod.fullName
        destmod.fullPath
    ++ [.writeAttr "dest-gate" destgate.fullName]
    ++ (match srcgate.channel with
        | some channel => dumpChannel channel
        | none => [])
    ++ [.closeTag "connection"]

/-- The inner `for` of the connection scan (lines 185-210) over the gates of `srcmod` still to
be visited. -/
def connectionGateLoop (mod srcmod : cModule) (atParent : Bool) : List cGate → List XMLCall
  | [] => []
  | srcgate :: rest =>
    (match srcgate.nextGate with
      | some destgate =>
        if srcgate.type = (if atParent then GateType.INPUT else GateType.OUTPUT) then
          dumpConnection mod srcmod srcgate destgate
        else []
      | none => [])
    ++ connectionGateLoop mod srcmod atParent rest

/-- The outer `for` of the connection scan (lines 182-211) over the submodules the iterator
has still to visit; at the end of the iteration `atParent` is set and `srcmod` is `mod`. -/
def connectionLoop (mod : cModule) : List cModule → List XMLCall
  | [] => connectionGateLoop mod mod true mod.gates
  | srcmod :: rest => connectionGateLoop mod srcmod false srcmod.gates ++ connectionLoop mod rest

/-- Lines 181-212 of `dumpComponent`. -/
def dumpConnections (mod : cModule) : List XMLCall :=
  [.openTag "connections"] ++ connectionLoop mod mod.submodules ++ [.closeTag "connections"]

mutual

/-- The method `dumpComponent` on a module; `sys` is the address of
`getSimulation()->getSystemModule()`. -/
def dumpModule (sys : Nat) : cModule → List XMLCall
  | .mk id parentModule fullName fullPath nedTypeName params properties gates submodules =>
    dumpComponentWith (if id = sys then "network" else "module") fullName nedTypeName params
      properties
      (dumpGates gates
        ++ (if !submodules.isEmpty then
              [.openTag "submodules"] ++ dumpSubmoduleLoop sys submodules
                ++ [.closeTag "submodules"]
            else [])
        ++ dumpConnections
            (.mk id parentModule fullName fullPath nedTypeName params properties gates
              submodules))

/-- The `for` over the submodules in `dumpComponent` (lines 176-177). -/
def dumpSubmoduleLoop (sys : Nat) : List cModule → List XMLCall
  | [] => []
  | submod :: rest => dumpModule sys submod ++ dumpSubmoduleLoop sys rest

end

/-- The method `dumpComponent` (lines 134-215), `Txc1::dump(XMLWriter&, cComponent*)` in
`txc1.cc`: the writer calls it issues for `component`. -/
def dumpComponent (sys : Nat) : cComponent → List XMLCall
  | .module mod => dumpModule sys mod
  | .channel ch => dumpChannel ch

/-- The method `dump` (lines 216-225) on a stream that does not fail: the text of the file
when the system module is `root`. -/
def dump (NDEBUG : Bool) (root : cModule) : Except WriterError String :=
  match XMLWriter.run NDEBUG (dumpComponent root.id (.module root))
      (XMLWriter.ctor "<?xml version=\"1.0\" encoding=\"ISO-8859-1\"?>\n") with
  | .ok xml => .ok xml.out
  | .error e => .error e

/-! ## Call sequences as element trees

The observations that the statements about the shape of the output are made with: the counts
of calls, the element forest that a sequence of calls spells out, and the text that a forest
stands for. -/

/-- The number of `openTag` calls in a sequence of calls. -/
def opens (calls : List XMLCall) : Nat :=
  calls.countP (fun c => match c with | .openTag _ => true | _ => false)

/-- The number of `closeTag` calls in a sequence of calls. -/
def closes (calls : List XMLCall) : Nat :=
  calls.countP (fun c => match c with | .closeTag _ => true | _ => false)

/-- An XML element: its name, its attributes with the values as handed to `writeAttr`, and
its child elements. -/
inductive Element where
  | mk (name : String) (attrs : List (String × String)) (children : List Element)

namespace Element

/-- The name of the element. -/
def name : Element → String
  | .mk n _ _ => n

/-- The attributes of the element, in order. -/
def attrs : Element → List (String × String)
  | .mk _ a _ => a

/-- The children of the element, in order. -/
def children : Element → List Element
  | .mk _ _ c => c

end Element

/-- The `writeAttr` calls for a list of attributes. -/
def attrCalls (attrs : List (String × String)) : List XMLCall :=
  attrs.map (fun a => XMLCall.writeAttr a.1 a.2)

mutual

/-- The calls that spell out an element: `openTag`, the attributes, the children, `closeTag`
with the same name. -/
def Element.calls : Element → List XMLCall
  | .mk name attrs children =>
    [.openTag name] ++ attrCalls attrs ++ Element.callsList children ++ [.closeTag name]

/-- The calls that spell out a list of elements one after the other. -/
def Element.callsList : List Element → List XMLCall
  | [] => []
  | e :: es => Element.calls e ++ Element.callsList es

end

/-- An element under construction while a call sequence is read: the tag is open, `attrs` and
`children` are what has been read of it. -/
structure Frame where
  name : String
  attrs : List (String × String)
  children : List Element

/-- The element of a frame whose tag is closed. -/
def Frame.close (f : Frame) : Element :=
  .mk f.name f.attrs f.children

/-- The frame with one more child. -/
def Frame.addChild (f : Frame) (e : Element) : Frame :=
  { f with children := f.children ++ [e] }

/-- Reading one call.  The stack holds the open elements, innermost first, above a frame for
the document.  An attribute is accepted for an open element without children only; `closeTag`
is accepted with the name of the innermost open element only. -/
def parseStep : List Frame → XMLCall → Option (List Frame)
  | st, .openTag tagName => some ({ name := tagName, attrs := [], children := [] } :: st)
  | f :: g :: st, .writeAttr attrName value =>
    if f.children.isEmpty then
      some ({ f with attrs := f.attrs ++ [(attrName, value)] } :: g :: st)
    else none
  | f :: g :: st, .closeTag tagName =>
    if tagName = f.name then some (g.addChild f.close :: st) else none
  | _, _ => none

/-- Reading a sequence of calls. -/
def parseRun : List XMLCall → List Frame → Option (List Frame)
  | [], st => some st
  | c :: cs, st =>
    match parseStep st c with
    | some st1 => parseRun cs st1
    | none => none

/-- The forest that a sequence of calls spells out, if the calls are properly nested: every
`closeTag` closes the innermost open element under its own name, attributes come in front of
the children, and no element is left open. -/
def parseCalls (calls : List XMLCall) : Option (List Element) :=
  match parseRun calls [{ name := "", attrs := [], children := [] }] with
  | some [doc] => some doc.children
  | _ => none

/-- A string of `n` blanks. -/
def spaces (n : Nat) : String :=
  ⟨List.replicate n ' '⟩

/-- The text of one attribute. -/
def attrText (a : String × String) : String :=
  " " ++ a.1 ++ "=\"" ++ xmlquote a.2 ++ "\""

mutual

/-- The text of an element at the indentation `p`: an element without children is closed in
its own tag; the children of an element are set four blanks further in, and the closing tag
has the indentation of the opening one. -/
def Element.render (p : String) : Element → String
  | .mk name attrs [] => p ++ "<" ++ name ++ String.join (attrs.map attrText) ++ "/>\n"
  | .mk name attrs (c :: cs) =>
    p ++ "<" ++ name ++ String.join (attrs.map attrText) ++ ">\n"
      ++ Element.renderList (p ++ "    ") (c :: cs) ++ p ++ "</" ++ name ++ ">\n"

/-- The text of a list of elements at the indentation `p`. -/
def Element.renderList (p : String) : List Element → String
  | [] => ""
  | e :: es => Element.render p e ++ Element.renderList p es

end

mutual

/-- The connection entries of an element tree, module by module: for every element named
`network` or `module`, in document order, its attributes together with the children of its
children named `connections`. -/
def Element.moduleConnections : Element → List (List (String × String) × List Element)
  | .mk name attrs children =>
    (if name = "network" ∨ name = "module" then
        [(attrs, (children.filter (fun x => x.name = "connections")).flatMap Element.children)]
      else [])
    ++ Element.moduleConnectionsList children

/-- The connection entries of a list of element trees, one tree after the other. -/
def Element.moduleConnectionsList :
    List Element → List (List (String × String) × List Element)
  | [] => []
  | e :: es => Element.moduleConnections e ++ Element.moduleConnectionsList es

end

/-! ## The document as the specification describes it

The element tree of section 4.2 of the specification, written down from its words, to compare
the traversal with. -/

/-- The element for a property: "open `property`, write `name`, ... write that assembled
string as the `value` attribute; close `property`". -/
def propertyElement (prop : cProperty) : Element :=
  .mk "property" [("name", prop.fullName), ("value", propertyValue prop)] []

/-- The element for a parameter: `name`, `type` with "long" given as "int", `value`, and the
properties of the parameter as children. -/
def paramElement (p : cPar) : Element :=
  .mk "param" [("name", p.fullName), ("type", replace p.typeName "long" "int"), ("value", p.str)]
    (p.properties.map propertyElement)

/-- Step 3: a `parameters` element if there is a parameter or a property, holding the
properties, then the parameters. -/
def parametersElements (params : List cPar) (properties : List cProperty) : List Element :=
  if params.isEmpty && properties.isEmpty then []
  else [.mk "parameters" [] (properties.map propertyElement ++ params.map paramElement)]

/-- The element for a channel. -/
def channelElement (ch : cChannel) : Element :=
  .mk "channel" [("name", ch.fullName), ("type", ch.nedTypeName)]
    (parametersElements ch.params ch.properties)

/-- The element for a gate. -/
def gateElement (gate : cGate) : Element :=
  .mk "gate" [("name", gate.fullName), ("type", gate.type.getTypeName)]
    (gate.properties.map propertyElement)

/-- Step 4a: a `gates` element if there is a gate. -/
def gatesElements (gates : List cGate) : List Element :=
  if gates.isEmpty then [] else [.mk "gates" [] (gates.map gateElement)]

/-- One link that the connection scan reports: the module and the gate it starts from, and the
gate it leads to. -/
structure Connection where
  srcmod : cModule
  srcgate : cGate
  destgate : GateRef

/-- The links that start from the gates of `srcmod` of direction `type`: the gates of that
direction whose next gate is not null, in order. -/
def linksOf (srcmod : cModule) (type : GateType) : List Connection :=
  srcmod.gates.filterMap (fun gate =>
    if gate.type = type then
      gate.nextGate.map (fun destgate =>
        { srcmod := srcmod, srcgate := gate, destgate := destgate })
    else none)

/-- Step 4c: the links reported while `mod` is dumped: pass 1, the `OUTPUT` gates of the
submodules in order; pass 2, the `INPUT` gates of `mod`. -/
def connectionsOf (mod : cModule) : List Connection :=
  mod.submodules.flatMap (fun srcmod => linksOf srcmod GateType.OUTPUT)
    ++ linksOf mod GateType.INPUT

/-- The attribute for the module at one end of a link: none if it is the module `mod` being
dumped, the short name if its parent is `mod`, the full path otherwise. -/
def endAttr (attrName : String) (mod id : Nat) (parentModule : Option Nat)
    (fullName fullPath : String) : List (String × String) :=
  if id = mod then []
  else if parentModule = some mod then [(attrName, fullName)]
  else [(attrName, fullPath)]

/-- The attributes of a `connection` element, in order. -/
def connectionAttrs (mod : cModule) (c : Connection) : List (String × String) :=
  endAttr "src-module" mod.id c.srcmod.id c.srcmod.parentModule c.srcmod.fullName
      c.srcmod.fullPath
    ++ [("src-gate", c.srcgate.fullName)]
    ++ endAttr "dest-module" mod.id c.destgate.ownerModule.id
        c.destgate.ownerModule.parentModule c.destgate.ownerModule.fullName
        c.destgate.ownerModule.fullPath
    ++ [("dest-gate", c.destgate.fullName)]

/-- The element for a link, with the channel of the link, if there is one, as its child. -/
def connectionElement (mod : cModule) (c : Connection) : Element :=
  .mk "connection" (connectionAttrs mod c)
    (match c.srcgate.channel with
      | some channel => [channelElement channel]
      | none => [])

/-- Step 4c: the `connections` element, always there. -/
def connectionsElement (mod : cModule) : Element :=
  .mk "connections" [] ((connectionsOf mod).map (connectionElement mod))

mutual

/-- Steps 1 to 5 for a module. -/
def moduleElement (sys : Nat) : cModule → Element
  | .mk id parentModule fullName fullPath nedTypeName params properties gates submodules =>
    .mk (if id = sys then "network" else "module") [("name", fullName), ("type", nedTypeName)]
      (parametersElements params properties ++ gatesElements gates
        ++ (if submodules.isEmpty then []
            else [.mk "submodules" [] (moduleElements sys submodules)])
        ++ [connectionsElement
            (.mk id parentModule fullName fullPath nedTypeName params properties gates
              submodules)])

/-- Step 4b: the elements for the submodules, in order. -/
def moduleElements (sys : Nat) : List cModule → List Element
  | [] => []
  | submod :: rest => moduleElement sys submod :: moduleElements sys rest

end

/-- The element for a component. -/
def componentElement (sys : Nat) : cComponent → Element
  | .module mod => moduleElement sys mod
  | .channel ch => channelElement ch

namespace cComponent

/-- The parameters of a component. -/
def params : cComponent → List cPar
  | .module mod => mod.params
  | .channel ch => ch.params

/-- The properties of a component. -/
def properties : cComponent → List cProperty
  | .module mod => mod.properties
  | .channel ch => ch.properties

end cComponent

mutual

/-- The modules of the tree below and including `mod`: `mod` first, then the modules of each
submodule's tree. -/
def allModules : cModule → List cModule
  | .mk id parentModule fullName fullPath nedTypeName params properties gates submodules =>
    .mk id parentModule fullName fullPath nedTypeName params properties gates submodules
      :: allModulesList submodules

/-- The modules of the trees of a list of modules. -/
def allModulesList : List cModule → List cModule
  | [] => []
  | submod :: rest => allModules submod ++ allModulesList rest

end

/-- The number of gates in `gates` of direction `type` whose next gate is not null. -/
def linkedGatesOf (type : GateType) (gates : List cGate) : Nat :=
  gates.countP (fun gate => decide (gate.type = type) && gate.nextGate.isSome)

/-! ## Concrete component trees -/

/-- The property `P` of the end-to-end scenario: the empty key with the values `x` and `y`. -/
def scenarioP : cProperty :=
  { fullName := "P", keys := [""], values := fun key => if key = "" then ["x", "y"] else [] }

/-- The tree of the end-to-end scenario: a network with the property `P`, no parameters and no
gates, and the submodules `m` of type `Foo` and `n`; the `OUTPUT` gate `out` of `m` leads to the
`INPUT` gate `in` of `n` without a channel.  The addresses of the three modules and the names
that the scenario leaves open are arguments. -/
def scenario (r m n : Nat) (netName netPath netType mPath nPath nType : String) : cModule :=
  .mk r none netName netPath netType [] [scenarioP] []
    [ .mk m (some r) "m" mPath "Foo" [] []
        [{ fullName := "out", type := .OUTPUT, properties := [],
           nextGate := some { fullName := "in", ownerModule :=
             { id := n, parentModule := some r, fullName := "n", fullPath := nPath } },
           channel := none }] [],
      .mk n (some r) "n" nPath nType [] []
        [{ fullName := "in", type := .INPUT, properties := [], nextGate := none,
           channel := none }] [] ]

/-- A module with one `INPUT` gate without a next gate, no submodules, parameters or
properties. -/
def sampleLeaf : cModule :=
  .mk 7 (some 0) "toc" "Net.toc" "Txc2" [] []
    [{ fullName := "in", type := .INPUT, properties := [], nextGate := none, channel := none }] []

/-- A channel with one parameter and no property. -/
def sampleChannel : cChannel :=
  { fullName := "channel", nedTypeName := "ned.DelayChannel",
    params := [{ fullName := "delay", typeName := "double", str := "100ms", properties := [] }],
    properties := [] }

/-- A property with the empty key, holding the values `a,b` and `c`, and the key `k`, holding
the value `d;e`. -/
def sampleProperty : cProperty :=
  { fullName := "display", keys := ["", "k"],
    values := fun key => if key = "" then ["a,b", "c"] else if key = "k" then ["d;e"] else [] }

/-- A channel with neither parameters nor properties. -/
def sampleLink : cChannel :=
  { fullName := "channel", nedTypeName := "ned.IdealChannel", params := [], properties := [] }

/-- An element `a` with one child `b`, both without attributes. -/
def sampleNested : Element :=
  .mk "a" [] [.mk "b" [] []]

/-- A property whose empty key holds the one value `a,b`. -/
def oneValue : cProperty :=
  { fullName := "p", keys := [""], values := fun key => if key = "" then ["a,b"] else [] }

/-- A property whose empty key holds the two values `"a` and `b"`, each with a double quote
of its own. -/
def twoValues : cProperty :=
  { fullName := "p", keys := [""],
    values := fun key => if key = "" then ["\"a", "b\""] else [] }

/-- A module `Net` with one submodule `s` whose `OUTPUT` gate `out` leads to the gate `in` of
a module that is neither `Net` nor one of its submodules. -/
def farLink : cModule :=
  .mk 0 none "Net" "Net" "Net" [] [] []
    [ .mk 1 (some 0) "s" "Net.s" "Txc2" [] []
        [{ fullName := "out", type := .OUTPUT, properties := [],
           nextGate := some { fullName := "in", ownerModule :=
             { id := 5, parentModule := some 3, fullName := "y", fullPath := "Net.x.y" } },
           channel := none }] [] ]

theorem strchr_isNone_iff (l : List Char) (c : Char) :
    (strchr l c).isNone = true ↔ c ∉ l := by
  induction l with
  | nil => simp [strchr]
  | cons x l ih =>
    by_cases h : x = c
    · simp [strchr, h]
    · simp [strchr, h, ih, Ne.symm h]

theorem strchr_eq_none_iff (l : List Char) (c : Char) : strchr l c = none ↔ c ∉ l := by
  rw [← strchr_isNone_iff, Option.isNone_iff_eq_none]

theorem mem_c_str (s : String) (c : Char) (h : c ∈ c_str s) : c ∈ s.data :=
  (List.takeWhile_sublist _).subset h

theorem c_str_of_nul_free (s : String) (h : NUL ∉ s.data) : c_str s = s.data := by
  unfold c_str
  rw [List.takeWhile_eq_self_iff]
  intro c hc
  simp only [decide_eq_true_eq]
  rintro rfl
  exact h hc

theorem xmlquoteLoop_data (l : List Char) (out : String) :
    (xmlquoteLoop l out).data
      = out.data ++ (l.map (fun c => (xmlquoteChar c).data)).flatten := by
  induction l generalizing out with
  | nil => simp [xmlquoteLoop]
  | cons c l ih => simp [xmlquoteLoop, ih, List.append_assoc]
theorem foldl_append_string (l : List String) (acc : String) :
    List.foldl (fun r s => r ++ s) acc l = acc ++ String.join l := by
  induction l generalizing acc with
  | nil => simp [String.join]
  | cons x l ih =>
    simp only [List.foldl_cons, String.join]
    rw [ih, ih ("" ++ x)]
    simp [String.append_assoc]

theorem string_join_cons (x : String) (l : List String) :
    String.join (x :: l) = x ++ String.join l := by
  simp only [String.join, List.foldl_cons]
  rw [foldl_append_string]
  simp [String.join]

theorem xmlquoteLoop_eq (l : List Char) (out : String) :
    xmlquoteLoop l out = out ++ String.join (l.map xmlquoteChar) := by
  induction l generalizing out with
  | nil => simp [xmlquoteLoop, String.join]
  | cons c l ih => simp [xmlquoteLoop, ih, string_join_cons, String.append_assoc]

theorem xmlquoteChar_length_pos (c : Char) : 1 ≤ (xmlquoteChar c).data.length := by
  unfold xmlquoteChar
  split_ifs <;> simp [String.singleton]

theorem xmlquoteChar_length_special (c : Char)
    (h : c = '<' ∨ c = '>' ∨ c = '"' ∨ c = '&') : 2 ≤ (xmlquoteChar c).data.length := by
  rcases h with rfl | rfl | rfl | rfl <;> decide

theorem flatten_length_ge (l : List Char) :
    l.length ≤ (l.map (fun c => (xmlquoteChar c).data)).flatten.length := by
  induction l with
  | nil => simp
  | cons c l ih =>
    have := xmlquoteChar_length_pos c
    simp only [List.map_cons, List.flatten_cons, List.length_append, List.length_cons]
    omega

theorem flatten_length_gt (l : List Char) (c : Char) (hc : c ∈ l)
    (h : c = '<' ∨ c = '>' ∨ c = '"' ∨ c = '&') :
    l.length < (l.map (fun c => (xmlquoteChar c).data)).flatten.length := by
  induction l with
  | nil => simp at hc
  | cons x l ih =>
    simp only [List.map_cons, List.flatten_cons, List.length_append, List.length_cons]
    rcases List.mem_cons.1 hc with rfl | hmem
    · have h1 := xmlquoteChar_length_special c h
      have h2 := flatten_length_ge l
      omega
    · have h1 := xmlquoteChar_length_pos x
      have h2 := ih hmem
      omega
theorem xmlquote_of_none (s : String)
    (h : '<' ∉ c_str s ∧ '>' ∉ c_str s ∧ '"' ∉ c_str s ∧ '&' ∉ c_str s) : xmlquote s = s := by
  obtain ⟨h1, h2, h3, h4⟩ := h
  simp [xmlquote, strchr_eq_none_iff, h1, h2, h3, h4]

theorem xmlquote_of_some (s : String)
    (h : '<' ∈ c_str s ∨ '>' ∈ c_str s ∨ '"' ∈ c_str s ∨ '&' ∈ c_str s) :
    xmlquote s = String.join ((c_str s).map xmlquoteChar) := by
  have hc : ¬ ('<' ∉ c_str s ∧ '>' ∉ c_str s ∧ '"' ∉ c_str s ∧ '&' ∉ c_str s) := by
    rintro ⟨h1, h2, h3, h4⟩
    rcases h with h | h | h | h <;> contradiction
  unfold xmlquote
  rw [if_neg]
  · rw [xmlquoteLoop_eq]; simp
  · simpa [strchr_eq_none_iff, and_assoc] using hc

/-- Claim C3, as the code has it: for every string `s` without a `NUL` character,
`xmlquote s` equals `s` if and only if `s` contains none of the characters `<`, `>`, `"`, `&`;
and on every string, with `NUL` or without, that contains none of them `xmlquote` is the
identity. -/
theorem xmlquote_eq_self_iff (s : String) :
    (NUL ∉ s.data →
      (xmlquote s = s ↔ '<' ∉ s.data ∧ '>' ∉ s.data ∧ '"' ∉ s.data ∧ '&' ∉ s.data))
    ∧ ('<' ∉ s.data ∧ '>' ∉ s.data ∧ '"' ∉ s.data ∧ '&' ∉ s.data → xmlquote s = s) := by
  have hid : '<' ∉ s.data ∧ '>' ∉ s.data ∧ '"' ∉ s.data ∧ '&' ∉ s.data → xmlquote s = s := by
    rintro ⟨h1, h2, h3, h4⟩
    exact xmlquote_of_none s
      ⟨fun h => h1 (mem_c_str s _ h), fun h => h2 (mem_c_str s _ h),
        fun h => h3 (mem_c_str s _ h), fun h => h4 (mem_c_str s _ h)⟩
  refine ⟨fun h0 => ⟨fun heq => ?_, hid⟩, hid⟩
  by_contra hn
  have hs : '<' ∈ c_str s ∨ '>' ∈ c_str s ∨ '"' ∈ c_str s ∨ '&' ∈ c_str s := by
    rw [c_str_of_nul_free s h0]
    by_contra hcon
    push_neg at hcon
    exact hn hcon
  have hlen : s.data.length < (xmlquote s).data.length := by
    unfold xmlquote
    rw [if_neg]
    · rw [xmlquoteLoop_data, c_str_of_nul_free s h0]
      rw [c_str_of_nul_free s h0] at hs
      simp only [show ("" : String).data = [] from rfl, List.nil_append]
      rcases hs with h | h | h | h
      · exact flatten_length_gt _ _ h (Or.inl rfl)
      · exact flatten_length_gt _ _ h (Or.inr (Or.inl rfl))
      · exact flatten_length_gt _ _ h (Or.inr (Or.inr (Or.inl rfl)))
      · exact flatten_length_gt _ _ h (Or.inr (Or.inr (Or.inr rfl)))
    · have hc : ¬ ('<' ∉ c_str s ∧ '>' ∉ c_str s ∧ '"' ∉ c_str s ∧ '&' ∉ c_str s) := by
        rintro ⟨h1, h2, h3, h4⟩
        rcases hs with h | h | h | h <;> contradiction
      simpa [strchr_eq_none_iff, and_assoc] using hc
  rw [heq] at hlen
  exact lt_irrefl _ hlen

theorem xmlquote_eq_self_iff_witness :
    NUL ∉ "a<b".data
    ∧ (xmlquote "a<b" = "a<b"
        ↔ '<' ∉ "a<b".data ∧ '>' ∉ "a<b".data ∧ '"' ∉ "a<b".data ∧ '&' ∉ "a<b".data)
    ∧ xmlquote "abc" = "abc" :=
  ⟨by decide, (xmlquote_eq_self_iff "a<b").1 (by decide),
    (xmlquote_eq_self_iff "abc").2 (by decide)⟩

/-- Claim C3 fails as stated: the string made of `NUL` and `<` contains `<`, and `xmlquote`
returns it unchanged. -/
theorem xmlquote_nul_counterexample :
    ¬ (xmlquote (String.mk [NUL, '<']) = String.mk [NUL, '<']
        ↔ '<' ∉ (String.mk [NUL, '<']).data ∧ '>' ∉ (String.mk [NUL, '<']).data
          ∧ '"' ∉ (String.mk [NUL, '<']).data ∧ '&' ∉ (String.mk [NUL, '<']).data) := by
  decide

/-- Claim C4, as the code has it: for every string `s` without a `NUL` character that contains
at least one of `<`, `>`, `"`, `&`, `xmlquote s` is the concatenation, in order, of the images
of the characters of `s`, where `<` gives `&lt;`, `>` gives `&gt;`, `"` gives `&quot;`, `&`
gives `&amp;` and every other character, the apostrophe among them, gives itself. -/
theorem xmlquote_eq_join (s : String) (h0 : NUL ∉ s.data)
    (h : '<' ∈ s.data ∨ '>' ∈ s.data ∨ '"' ∈ s.data ∨ '&' ∈ s.data) :
    xmlquote s = String.join (s.data.map xmlquoteChar)
    ∧ xmlquoteChar '<' = "&lt;" ∧ xmlquoteChar '>' = "&gt;"
    ∧ xmlquoteChar '"' = "&quot;" ∧ xmlquoteChar '&' = "&amp;"
    ∧ xmlquoteChar (Char.ofNat 39) = String.singleton (Char.ofNat 39)
    ∧ ∀ c : Char, c ≠ '<' → c ≠ '>' → c ≠ '"' → c ≠ '&' →
        xmlquoteChar c = String.singleton c := by
  refine ⟨?_, by decide, by decide, by decide, by decide, by decide, ?_⟩
  · have := xmlquote_of_some s (by rw [c_str_of_nul_free s h0]; exact h)
    rw [this, c_str_of_nul_free s h0]
  · intro c h1 h2 h3 h4
    simp [xmlquoteChar, h1, h2, h3, h4]

theorem xmlquote_eq_join_witness :
    xmlquote "a<'&b" = String.join ("a<'&b".data.map xmlquoteChar)
    ∧ xmlquote "a<'&b" = "a&lt;'&amp;b" :=
  ⟨(xmlquote_eq_join "a<'&b" (by decide) (by decide)).1, by decide⟩

/-- Claim C4 fails as stated: of the string `<`, `NUL`, `a` the loop of `xmlquote` reads the
first character only, so that the characters after it are lost. -/
theorem xmlquote_join_counterexample :
    ('<' ∈ (String.mk ['<', NUL, 'a']).data ∨ '>' ∈ (String.mk ['<', NUL, 'a']).data
      ∨ '"' ∈ (String.mk ['<', NUL, 'a']).data ∨ '&' ∈ (String.mk ['<', NUL, 'a']).data)
    ∧ xmlquote (String.mk ['<', NUL, 'a']) = "&lt;"
    ∧ xmlquote (String.mk ['<', NUL, 'a'])
        ≠ String.join ((String.mk ['<', NUL, 'a']).data.map xmlquoteChar) := by
  decide

/-- Claim C10: `quote v` is `v` between two double quotes when `v` contains a comma or a
semicolon, and `v` itself otherwise; a double quote inside `v` is left as it is. -/
theorem quote_eq (v : String) :
    quote v = if ',' ∈ v.data ∨ ';' ∈ v.data then "\"" ++ v ++ "\"" else v := by
  unfold quote
  by_cases h1 : ',' ∈ v.data <;> by_cases h2 : ';' ∈ v.data <;>
    simp [strchr_eq_none_iff, h1, h2]
theorem intercalate_go_eq (sep : String) (l : List String) (acc : String) :
    String.intercalate.go acc sep l = acc ++ String.join (l.map (fun x => sep ++ x)) := by
  induction l generalizing acc with
  | nil => simp [String.intercalate.go, String.join]
  | cons x l ih =>
    simp [String.intercalate.go, ih, string_join_cons, String.append_assoc]

theorem intercalate_cons (sep x : String) (l : List String) :
    sep.intercalate (x :: l) = x ++ String.join (l.map (fun y => sep ++ y)) := by
  simp [String.intercalate, intercalate_go_eq]

theorem valuesLoop_succ (v : Nat) (vals : List String) (value : String) :
    valuesLoop (v + 1) vals value
      = value ++ String.join (vals.map (fun x => "," ++ quote x)) := by
  induction vals generalizing v value with
  | nil => simp [valuesLoop, String.join]
  | cons x rest ih =>
    simp [valuesLoop, ih, string_join_cons, String.append_assoc]

theorem valuesLoop_zero (vals : List String) (value : String) :
    valuesLoop 0 vals value = value ++ ",".intercalate (vals.map quote) := by
  cases vals with
  | nil => simp [valuesLoop, String.intercalate]
  | cons x rest =>
    simp [valuesLoop, valuesLoop_succ, intercalate_cons, String.append_assoc, List.map_map,
      Function.comp_def]

theorem keysLoop_succ (prop : cProperty) (k : Nat) (keys : List String) (value : String) :
    keysLoop prop (k + 1) keys value
      = value ++ String.join (keys.map (fun key =>
          ";" ++ ((if key ≠ "" then key ++ "=" else "")
            ++ ",".intercalate ((prop.values key).map quote)))) := by
  induction keys generalizing k value with
  | nil => simp [keysLoop, String.join]
  | cons key rest ih =>
    by_cases hk : key = "" <;>
      simp [keysLoop, ih, valuesLoop_zero, string_join_cons, String.append_assoc, hk]

theorem propertyValue_eq_intercalate (prop : cProperty) :
    propertyValue prop
      = ";".intercalate (prop.keys.map (fun key =>
          (if key ≠ "" then key ++ "=" else "")
            ++ ",".intercalate ((prop.values key).map quote))) := by
  unfold propertyValue
  cases prop.keys with
  | nil => simp [keysLoop, String.intercalate]
  | cons key rest =>
    by_cases hk : key = "" <;>
      simp [keysLoop, keysLoop_succ, valuesLoop_zero, intercalate_cons, String.append_assoc,
        hk, List.map_map, Function.comp_def]
/-! ## The traversal spells out the element tree of the specification -/

theorem callsList_append (a b : List Element) :
    Element.callsList (a ++ b) = Element.callsList a ++ Element.callsList b := by
  induction a with
  | nil => simp [Element.callsList]
  | cons e es ih => simp [Element.callsList, ih]

theorem callsList_singleton (e : Element) : Element.callsList [e] = e.calls := by
  simp [Element.callsList]

theorem dumpProperties_eq_calls (props : List cProperty) :
    dumpProperties props = Element.callsList (props.map propertyElement) := by
  induction props with
  | nil => simp [dumpProperties, Element.callsList]
  | cons p rest ih =>
    simp [dumpProperties, Element.callsList, Element.calls, propertyElement, attrCalls, ih]

theorem dumpParams_eq_calls (params : List cPar) :
    dumpParams params = Element.callsList (params.map paramElement) := by
  induction params with
  | nil => simp [dumpParams, Element.callsList]
  | cons p rest ih =>
    simp [dumpParams, Element.callsList, Element.calls, paramElement, attrCalls, ih,
      dumpProperties_eq_calls]

theorem dumpParameters_eq_calls (params : List cPar) (props : List cProperty) :
    dumpParameters params props = Element.callsList (parametersElements params props) := by
  unfold dumpParameters parametersElements
  cases params <;> cases props <;>
    simp [Element.callsList, Element.calls, attrCalls, callsList_append,
      dumpProperties_eq_calls, dumpParams_eq_calls]

theorem dumpChannel_eq_calls (ch : cChannel) : dumpChannel ch = (channelElement ch).calls := by
  simp [dumpChannel, dumpComponentWith, channelElement, Element.calls, attrCalls,
    dumpParameters_eq_calls, Element.callsList]

theorem dumpGateLoop_eq_calls (gates : List cGate) :
    dumpGateLoop gates = Element.callsList (gates.map gateElement) := by
  induction gates with
  | nil => simp [dumpGateLoop, Element.callsList]
  | cons g rest ih =>
    simp [dumpGateLoop, Element.callsList, Element.calls, gateElement, attrCalls, ih,
      dumpProperties_eq_calls]

theorem dumpGates_eq_calls (gates : List cGate) :
    dumpGates gates = Element.callsList (gatesElements gates) := by
  unfold dumpGates gatesElements
  cases gates <;>
    simp [Element.callsList, Element.calls, attrCalls, dumpGateLoop_eq_calls]

theorem moduleAttr_eq_calls (attrName : String) (mod id : Nat) (parent : Option Nat)
    (fullName fullPath : String) :
    moduleAttr attrName mod id parent fullName fullPath
      = attrCalls (endAttr attrName mod id parent fullName fullPath) := by
  unfold moduleAttr endAttr
  split_ifs <;> simp [attrCalls]

theorem attrCalls_append (a b : List (String × String)) :
    attrCalls (a ++ b) = attrCalls a ++ attrCalls b := by
  simp [attrCalls]

theorem dumpConnection_eq_calls (mod srcmod : cModule) (srcgate : cGate) (destgate : GateRef) :
    dumpConnection mod srcmod srcgate destgate
      = (connectionElement mod
          { srcmod := srcmod, srcgate := srcgate, destgate := destgate }).calls := by
  unfold dumpConnection connectionElement connectionAttrs
  cases h : srcgate.channel <;>
    simp [Element.calls, Element.callsList, moduleAttr_eq_calls, attrCalls_append,
      dumpChannel_eq_calls, attrCalls]

theorem connectionGateLoop_eq_calls (mod srcmod : cModule) (atParent : Bool)
    (gates : List cGate) :
    connectionGateLoop mod srcmod atParent gates
      = Element.callsList ((gates.filterMap (fun gate =>
          if gate.type = (if atParent then GateType.INPUT else GateType.OUTPUT) then
            gate.nextGate.map (fun destgate =>
              ({ srcmod := srcmod, srcgate := gate, destgate := destgate } : Connection))
          else none)).map (connectionElement mod)) := by
  induction gates with
  | nil => simp [connectionGateLoop, Element.callsList]
  | cons g rest ih =>
    rw [connectionGateLoop, ih]
    cases hn : g.nextGate with
    | none => simp [List.filterMap_cons, hn]
    | some d =>
      by_cases ht : g.type = (if atParent then GateType.INPUT else GateType.OUTPUT)
      · simp [List.filterMap_cons, hn, ht, Element.callsList, dumpConnection_eq_calls]
      · simp [List.filterMap_cons, hn, ht]

theorem connectionLoop_eq_calls (mod : cModule) (subs : List cModule) :
    connectionLoop mod subs
      = Element.callsList
          ((subs.flatMap (fun srcmod => linksOf srcmod GateType.OUTPUT)
            ++ linksOf mod GateType.INPUT).map (connectionElement mod)) := by
  induction subs with
  | nil => simp [connectionLoop, connectionGateLoop_eq_calls, linksOf]
  | cons s rest ih =>
    simp only [connectionLoop, ih, connectionGateLoop_eq_calls, linksOf, List.flatMap_cons,
      List.map_append, callsList_append, List.append_assoc]
    simp

theorem dumpConnections_eq_calls (mod : cModule) :
    dumpConnections mod = (connectionsElement mod).calls := by
  simp [dumpConnections, connectionsElement, connectionsOf, Element.calls, attrCalls,
    connectionLoop_eq_calls]

mutual

theorem dumpModule_eq_calls (sys : Nat) :
    ∀ mod : cModule, dumpModule sys mod = (moduleElement sys mod).calls
  | .mk id parentModule fullName fullPath nedTypeName params properties gates submodules => by
    have ih := dumpSubmoduleLoop_eq_calls sys submodules
    cases hs : submodules with
    | nil =>
      subst hs
      simp [dumpModule, moduleElement, dumpComponentWith, Element.calls, attrCalls,
        callsList_append, dumpParameters_eq_calls, dumpGates_eq_calls,
        dumpConnections_eq_calls, Element.callsList]
    | cons s rest =>
      rw [hs] at ih
      simp [dumpModule, moduleElement, dumpComponentWith, Element.calls, attrCalls,
        callsList_append, dumpParameters_eq_calls, dumpGates_eq_calls,
        dumpConnections_eq_calls, Element.callsList, ih]

theorem dumpSubmoduleLoop_eq_calls (sys : Nat) :
    ∀ subs : List cModule,
      dumpSubmoduleLoop sys subs = Element.callsList (moduleElements sys subs)
  | [] => by simp [dumpSubmoduleLoop, moduleElements, Element.callsList]
  | s :: rest => by
    simp [dumpSubmoduleLoop, moduleElements, Element.callsList, dumpModule_eq_calls sys s,
      dumpSubmoduleLoop_eq_calls sys rest]

end

theorem dumpComponent_eq_calls (sys : Nat) (component : cComponent) :
    dumpComponent sys component = (componentElement sys component).calls := by
  cases component with
  | module mod => exact dumpModule_eq_calls sys mod
  | channel ch => exact dumpChannel_eq_calls ch
/-! ## Reading back the calls of an element -/

theorem parseRun_attrCalls (attrs : List (String × String)) (rest : List XMLCall)
    (name : String) (as0 : List (String × String)) (g : Frame) (st : List Frame) :
    parseRun (attrCalls attrs ++ rest) ({ name := name, attrs := as0, children := [] } :: g :: st)
      = parseRun rest ({ name := name, attrs := as0 ++ attrs, children := [] } :: g :: st) := by
  induction attrs generalizing as0 with
  | nil => simp [attrCalls]
  | cons a attrs ih =>
    have := ih (as0 ++ [a])
    simp only [attrCalls, List.map_cons, List.cons_append] at this ⊢
    simp only [parseRun, parseStep, List.isEmpty_nil, if_true]
    rw [this]
    simp [List.append_assoc]

mutual

theorem parseRun_calls :
    ∀ (e : Element) (rest : List XMLCall) (f : Frame) (st : List Frame),
      parseRun (e.calls ++ rest) (f :: st) = parseRun rest (f.addChild e :: st)
  | .mk name attrs children, rest, f, st => by
    have ih := parseRun_callsList children (XMLCall.closeTag name :: rest)
      { name := name, attrs := attrs, children := [] } (f :: st)
    simp only [Element.calls, List.append_assoc, List.singleton_append, List.cons_append,
      List.nil_append]
    rw [parseRun]
    simp only [parseStep]
    rw [parseRun_attrCalls, List.nil_append, ih]
    simp [parseRun, parseStep, Frame.close]

theorem parseRun_callsList :
    ∀ (es : List Element) (rest : List XMLCall) (g : Frame) (st : List Frame),
      parseRun (Element.callsList es ++ rest) (g :: st)
        = parseRun rest ({ g with children := g.children ++ es } :: st)
  | [], rest, g, st => by simp [Element.callsList]
  | e :: es, rest, g, st => by
    simp only [Element.callsList, List.append_assoc]
    rw [parseRun_calls e, parseRun_callsList es]
    simp [Frame.addChild, List.append_assoc]

end

theorem parseCalls_calls (e : Element) : parseCalls e.calls = some [e] := by
  have := parseRun_calls e [] { name := "", attrs := [], children := [] } []
  simp only [List.append_nil] at this
  simp [parseCalls, this, parseRun, Frame.addChild]

theorem parseCalls_callsList (es : List Element) : parseCalls (Element.callsList es) = some es := by
  have := parseRun_callsList es [] { name := "", attrs := [], children := [] } []
  simp only [List.append_nil] at this
  simp [parseCalls, this, parseRun]
/-! ## The text the writer produces for the calls of an element -/

theorem spaces_append_four (n : Nat) : spaces n ++ "    " = spaces (n + 4) := by
  apply String.ext
  show (List.replicate n ' ') ++ [' ', ' ', ' ', ' '] = List.replicate (n + 4) ' '
  rw [List.replicate_add]
  rfl

theorem spaces_length (n : Nat) : (spaces n).length = n := by
  simp [spaces, String.length]

theorem spaces_drop_four (n : Nat) : (⟨(spaces (n + 4)).data.drop 4⟩ : String) = spaces n := by
  apply String.ext
  show (List.replicate (n + 4) ' ').drop 4 = List.replicate n ' '
  simp

theorem writeAttr_eq (NDEBUG : Bool) (xml : XMLWriter) (attrName value : String) :
    xml.writeAttr NDEBUG attrName value
      = if NDEBUG || xml.tagOpen then
          .ok { xml with out := xml.out ++ " " ++ attrName ++ "=\"" ++ xmlquote value ++ "\"" }
        else .error .assertion := by
  unfold XMLWriter.writeAttr XMLWriter.writeAttrOutcome XMLWriter.writeAttrBody
  by_cases h : (NDEBUG || xml.tagOpen) = true
  · simp [XMLWriter.execStmts, XMLWriter.ASSERT, XMLWriter.Outcome.result, h]
  · simp [XMLWriter.execStmts, XMLWriter.ASSERT, XMLWriter.Outcome.result, h]

theorem run_append (NDEBUG : Bool) (a b : List XMLCall) (xml : XMLWriter) :
    XMLWriter.run NDEBUG (a ++ b) xml
      = match XMLWriter.run NDEBUG a xml with
        | .ok xml1 => XMLWriter.run NDEBUG b xml1
        | .error e => .error e := by
  induction a generalizing xml with
  | nil => simp [XMLWriter.run]
  | cons c cs ih =>
    simp only [List.cons_append, XMLWriter.run]
    cases h : xml.step NDEBUG c with
    | ok xml1 => simp [ih]
    | error e => simp

theorem run_attrCalls (NDEBUG : Bool) (attrs : List (String × String))
    (rest : List XMLCall) (indent out : String) :
    XMLWriter.run NDEBUG (attrCalls attrs ++ rest)
        { indent := indent, out := out, tagOpen := true }
      = XMLWriter.run NDEBUG rest
          { indent := indent, out := out ++ String.join (attrs.map attrText), tagOpen := true } := by
  induction attrs generalizing out with
  | nil => simp [attrCalls, String.join]
  | cons a attrs ih =>
    have := ih (out ++ attrText a)
    simp only [attrCalls, List.map_cons, List.cons_append] at this ⊢
    simp only [XMLWriter.run, XMLWriter.step, writeAttr_eq, Bool.or_true, if_true]
    simp only [attrText, String.append_assoc] at this ⊢
    rw [this, string_join_cons]
    simp [attrText, String.append_assoc]

mutual

theorem run_calls (NDEBUG : Bool) :
    ∀ (e : Element) (rest : List XMLCall) (n : Nat) (out : String) (b : Bool),
      XMLWriter.run NDEBUG (e.calls ++ rest) { indent := spaces n, out := out, tagOpen := b }
        = XMLWriter.run NDEBUG rest
            { indent := spaces n
              out := out ++ (if b then ">\n" else "") ++ Element.render (spaces n) e
              tagOpen := false }
  | .mk name attrs children, rest, n, out, b => by
    have ih := run_callsList NDEBUG children (XMLCall.closeTag name :: rest) (n + 4)
    simp only [Element.calls, List.append_assoc, List.singleton_append, List.cons_append,
      List.nil_append]
    rw [XMLWriter.run]
    simp only [XMLWriter.step, XMLWriter.openTag, spaces_append_four]
    rw [run_attrCalls, ih]
    rw [XMLWriter.run]
    simp only [XMLWriter.step, XMLWriter.closeTag, spaces_length, spaces_drop_four]
    rw [if_neg (by omega)]
    cases children with
    | nil =>
      cases b <;> simp [Element.render, Element.renderList, String.append_assoc]
    | cons c cs =>
      cases b <;>
        simp [Element.render, Element.renderList, String.append_assoc, spaces_append_four]

theorem run_callsList (NDEBUG : Bool) :
    ∀ (es : List Element) (rest : List XMLCall) (n : Nat) (out : String) (b : Bool),
      XMLWriter.run NDEBUG (Element.callsList es ++ rest)
          { indent := spaces n, out := out, tagOpen := b }
        = XMLWriter.run NDEBUG rest
            { indent := spaces n
              out := out ++ (if b && !es.isEmpty then ">\n" else "")
                ++ Element.renderList (spaces n) es
              tagOpen := b && es.isEmpty }
  | [], rest, n, out, b => by simp [Element.callsList, Element.renderList]
  | e :: es, rest, n, out, b => by
    simp only [Element.callsList, List.append_assoc]
    rw [run_calls NDEBUG e, run_callsList NDEBUG es]
    cases b <;> simp [Element.renderList, String.append_assoc]

end

theorem run_element (NDEBUG : Bool) (e : Element) (n : Nat) (out : String) :
    XMLWriter.run NDEBUG e.calls { indent := spaces n, out := out, tagOpen := false }
      = .ok { indent := spaces n, out := out ++ Element.render (spaces n) e, tagOpen := false } := by
  have := run_calls NDEBUG e [] n out false
  simpa [XMLWriter.run] using this

/-! ## Properly nested call sequences are balanced -/

theorem parseStep_length (st st1 : List Frame) (c : XMLCall) (h : parseStep st c = some st1) :
    st1.length + closes [c] = st.length + opens [c] ∧ 1 ≤ st1.length := by
  cases c with
  | openTag n =>
    simp only [parseStep, Option.some.injEq] at h
    subst h
    simp [opens, closes]
  | writeAttr a v =>
    match st, h with
    | [], h => simp [parseStep] at h
    | [_], h => simp [parseStep] at h
    | f :: g :: st, h =>
      simp only [parseStep] at h
      split_ifs at h
      simp only [Option.some.injEq] at h
      subst h
      simp [opens, closes]
  | closeTag n =>
    match st, h with
    | [], h => simp [parseStep] at h
    | [_], h => simp [parseStep] at h
    | f :: g :: st, h =>
      simp only [parseStep] at h
      split_ifs at h
      simp only [Option.some.injEq] at h
      subst h
      simp [opens, closes]

theorem opens_cons (c : XMLCall) (l : List XMLCall) : opens (c :: l) = opens [c] + opens l := by
  simp only [opens, List.countP_cons, List.countP_nil]
  omega

theorem closes_cons (c : XMLCall) (l : List XMLCall) :
    closes (c :: l) = closes [c] + closes l := by
  simp only [closes, List.countP_cons, List.countP_nil]
  omega

theorem parseRun_length (l : List XMLCall) (st st1 : List Frame)
    (h : parseRun l st = some st1) (hst : 1 ≤ st.length) :
    st1.length + closes l = st.length + opens l ∧ 1 ≤ st1.length := by
  induction l generalizing st with
  | nil =>
    simp only [parseRun, Option.some.injEq] at h
    subst h
    simp [opens, closes, hst]
  | cons c cs ih =>
    rw [parseRun] at h
    cases hc : parseStep st c with
    | none => simp [hc] at h
    | some st2 =>
      simp only [hc] at h
      obtain ⟨h1, h2⟩ := parseStep_length st st2 c hc
      obtain ⟨h3, h4⟩ := ih st2 h h2
      rw [opens_cons c cs, closes_cons c cs]
      exact ⟨by omega, h4⟩

theorem parseRun_take (l : List XMLCall) (k : Nat) (st st1 : List Frame)
    (h : parseRun l st = some st1) : ∃ st2, parseRun (l.take k) st = some st2 := by
  induction l generalizing st k with
  | nil => exact ⟨st, by simp [parseRun]⟩
  | cons c cs ih =>
    cases k with
    | zero => exact ⟨st, by simp [parseRun]⟩
    | succ k =>
      rw [parseRun] at h
      cases hc : parseStep st c with
      | none => simp [hc] at h
      | some st2 =>
        simp only [hc] at h
        obtain ⟨st3, h3⟩ := ih k st2 h
        exact ⟨st3, by simp [List.take_succ_cons, parseRun, hc, h3]⟩

theorem balanced_of_parseCalls (l : List XMLCall) (es : List Element)
    (h : parseCalls l = some es) :
    opens l = closes l ∧ ∀ k, closes (l.take k) ≤ opens (l.take k) := by
  unfold parseCalls at h
  cases hr : parseRun l [{ name := "", attrs := [], children := [] }] with
  | none => simp [hr] at h
  | some st1 =>
    rw [hr] at h
    have hlen : st1.length = 1 := by
      match st1, h with
      | [_], _ => rfl
    constructor
    · have := (parseRun_length l _ st1 hr (by simp)).1
      simp only [List.length_singleton] at this
      omega
    · intro k
      obtain ⟨st2, h2⟩ := parseRun_take l k _ st1 hr
      have := parseRun_length (l.take k) _ st2 h2 (by simp)
      simp only [List.length_singleton] at this
      omega
/-! ## Claims about the shape of the output -/

/-- Claim C2: the `openTag` and `closeTag` calls that `dumpComponent` issues are balanced.
There are as many of the one as of the other; no initial part of the call sequence has more
`closeTag` than `openTag` calls; the sequence reads as one element `e`, so that every
`closeTag` carries the name of the `openTag` it closes; and on a writer with an indentation of
`n` blanks the text written, after the end of a tag that was still open, is the rendering of
`e`, in which a closing tag has the indentation of its opening tag and the children of an
element are set four blanks further in. -/
theorem dumpComponent_balanced (NDEBUG : Bool) (sys : Nat) (component : cComponent) :
    opens (dumpComponent sys component) = closes (dumpComponent sys component)
    ∧ (∀ k, closes ((dumpComponent sys component).take k)
        ≤ opens ((dumpComponent sys component).take k))
    ∧ ∃ e, parseCalls (dumpComponent sys component) = some [e]
      ∧ ∀ (n : Nat) (out : String) (b : Bool),
        XMLWriter.run NDEBUG (dumpComponent sys component)
            { indent := spaces n, out := out, tagOpen := b }
          = .ok { indent := spaces n
                  out := out ++ (if b then ">\n" else "") ++ Element.render (spaces n) e
                  tagOpen := false } := by
  have hp : parseCalls (dumpComponent sys component) = some [componentElement sys component] := by
    rw [dumpComponent_eq_calls]; exact parseCalls_calls _
  obtain ⟨h1, h2⟩ := balanced_of_parseCalls _ _ hp
  refine ⟨h1, h2, componentElement sys component, hp, fun n out b => ?_⟩
  rw [dumpComponent_eq_calls]
  have := run_calls NDEBUG (componentElement sys component) [] n out b
  simpa [XMLWriter.run] using this

set_option maxRecDepth 100000

/-- Claim C5: the text that `dumpComponent` writes, on a writer just constructed, for the tree
of the end-to-end scenario, whatever the names the scenario leaves open and whatever the stream
holds already, when the addresses of `m` and `n` differ from that of the network `r`, which is
the system module. -/
theorem scenario_text (NDEBUG : Bool) (r m n : Nat)
    (netName netPath netType mPath nPath nType : String)
    (out : String) (hm : m ≠ r) (hn : n ≠ r) :
    XMLWriter.run NDEBUG
        (dumpComponent r (.module (scenario r m n netName netPath netType mPath nPath nType)))
        (XMLWriter.ctor out)
      = .ok { indent := "", tagOpen := false, out := out ++
        ("<network name=\"" ++ xmlquote netName ++ "\" type=\"" ++ xmlquote netType ++ "\">\n"
        ++ "    <parameters>\n"
        ++ "        <property name=\"P\" value=\"x,y\"/>\n"
        ++ "    </parameters>\n"
        ++ "    <submodules>\n"
        ++ "        <module name=\"m\" type=\"Foo\">\n"
        ++ "            <gates>\n"
        ++ "                <gate name=\"out\" type=\"output\"/>\n"
        ++ "            </gates>\n"
        ++ "            <connections/>\n"
        ++ "        </module>\n"
        ++ "        <module name=\"n\" type=\"" ++ xmlquote nType ++ "\">\n"
        ++ "            <gates>\n"
        ++ "                <gate name=\"in\" type=\"input\"/>\n"
        ++ "            </gates>\n"
        ++ "            <connections/>\n"
        ++ "        </module>\n"
        ++ "    </submodules>\n"
        ++ "    <connections>\n"
        ++ "        <connection src-module=\"m\" src-gate=\"out\" dest-module=\"n\" dest-gate=\"in\"/>\n"
        ++ "    </connections>\n"
        ++ "</network>\n") } := by
  unfold XMLWriter.ctor
  rw [dumpComponent_eq_calls, show ("" : String) = spaces 0 from rfl, run_element]
  have q1 : xmlquote "P" = "P" := by decide
  have q2 : xmlquote "x,y" = "x,y" := by decide
  have q3 : xmlquote "m" = "m" := by decide
  have q4 : xmlquote "Foo" = "Foo" := by decide
  have q5 : xmlquote "out" = "out" := by decide
  have q6 : xmlquote "output" = "output" := by decide
  have q7 : xmlquote "n" = "n" := by decide
  have q8 : xmlquote "in" = "in" := by decide
  have q9 : xmlquote "input" = "input" := by decide
  have pv : propertyValue scenarioP = "x,y" := by decide
  have sp : spaces 0 = "" := rfl
  simp [componentElement, scenario, moduleElement, moduleElements, parametersElements,
    gatesElements, connectionsElement, connectionsOf, linksOf, cModule.gates, cModule.submodules,
    cModule.id, cModule.parentModule, cModule.fullName, cModule.fullPath, hm, hn,
    Element.render, Element.renderList, attrText, propertyElement, gateElement,
    connectionElement, connectionAttrs, endAttr, GateType.getTypeName, string_join_cons,
    String.join, q1, q2, q3, q4, q5, q6, q7, q8, q9, pv, sp,
    show scenarioP.fullName = "P" from rfl]
  apply String.ext
  simp

theorem scenario_text_witness :
    (1 ≠ 0 ∧ 2 ≠ 0)
    ∧ dump false (scenario 0 1 2 "Net" "Net" "Tictoc" "Net.m" "Net.n" "Bar") = .ok
      ("<?xml version=\"1.0\" encoding=\"ISO-8859-1\"?>\n"
        ++ ("<network name=\"" ++ "Net" ++ "\" type=\"" ++ "Tictoc" ++ "\">\n"
        ++ "    <parameters>\n"
        ++ "        <property name=\"P\" value=\"x,y\"/>\n"
        ++ "    </parameters>\n"
        ++ "    <submodules>\n"
        ++ "        <module name=\"m\" type=\"Foo\">\n"
        ++ "            <gates>\n"
        ++ "                <gate name=\"out\" type=\"output\"/>\n"
        ++ "            </gates>\n"
        ++ "            <connections/>\n"
        ++ "        </module>\n"
        ++ "        <module name=\"n\" type=\"" ++ "Bar" ++ "\">\n"
        ++ "            <gates>\n"
        ++ "                <gate name=\"in\" type=\"input\"/>\n"
        ++ "            </gates>\n"
        ++ "            <connections/>\n"
        ++ "        </module>\n"
        ++ "    </submodules>\n"
        ++ "    <connections>\n"
        ++ "        <connection src-module=\"m\" src-gate=\"out\" dest-module=\"n\" dest-gate=\"in\"/>\n"
        ++ "    </connections>\n"
        ++ "</network>\n")) := by
  refine ⟨by decide, ?_⟩
  have h := scenario_text false 0 1 2 "Net" "Net" "Tictoc" "Net.m" "Net.n" "Bar"
    "<?xml version=\"1.0\" encoding=\"ISO-8859-1\"?>\n" (by decide) (by decide)
  unfold dump
  rw [show (scenario 0 1 2 "Net" "Net" "Tictoc" "Net.m" "Net.n" "Bar").id = 0 from rfl, h]
  rfl

/-! ## Counting the `connection` elements -/

theorem count_append (a b : List XMLCall) (c : XMLCall) :
    (a ++ b).count c = a.count c + b.count c := List.count_append _ _ _

theorem count_dumpProperties (props : List cProperty) :
    (dumpProperties props).count (.openTag "connection") = 0 := by
  induction props with
  | nil => simp [dumpProperties]
  | cons p rest ih => simp [dumpProperties, List.count_cons, ih]

theorem count_dumpParams (params : List cPar) :
    (dumpParams params).count (.openTag "connection") = 0 := by
  induction params with
  | nil => simp [dumpParams]
  | cons p rest ih =>
    simp [dumpParams, List.count_cons, List.count_append, ih, count_dumpProperties]

theorem count_dumpParameters (params : List cPar) (props : List cProperty) :
    (dumpParameters params props).count (.openTag "connection") = 0 := by
  unfold dumpParameters
  split_ifs <;>
    simp [List.count_cons, List.count_append, count_dumpProperties, count_dumpParams]

theorem count_dumpChannel (ch : cChannel) :
    (dumpChannel ch).count (.openTag "connection") = 0 := by
  simp [dumpChannel, dumpComponentWith, List.count_cons, List.count_append,
    count_dumpParameters]

theorem count_dumpGateLoop (gates : List cGate) :
    (dumpGateLoop gates).count (.openTag "connection") = 0 := by
  induction gates with
  | nil => simp [dumpGateLoop]
  | cons g rest ih =>
    simp [dumpGateLoop, List.count_cons, List.count_append, ih, count_dumpProperties]

theorem count_dumpGates (gates : List cGate) :
    (dumpGates gates).count (.openTag "connection") = 0 := by
  unfold dumpGates
  split_ifs <;> simp [List.count_cons, List.count_append, count_dumpGateLoop]

theorem count_moduleAttr (attrName : String) (mod id : Nat) (parent : Option Nat)
    (fullName fullPath : String) :
    (moduleAttr attrName mod id parent fullName fullPath).count (.openTag "connection") = 0 := by
  unfold moduleAttr
  split_ifs <;> simp [List.count_cons]

theorem count_dumpConnection (mod srcmod : cModule) (srcgate : cGate) (destgate : GateRef) :
    (dumpConnection mod srcmod srcgate destgate).count (.openTag "connection") = 1 := by
  unfold dumpConnection
  cases h : srcgate.channel <;>
    simp [List.count_cons, List.count_append, count_moduleAttr, count_dumpChannel]

theorem count_connectionGateLoop (mod srcmod : cModule) (atParent : Bool)
    (gates : List cGate) :
    (connectionGateLoop mod srcmod atParent gates).count (.openTag "connection")
      = linkedGatesOf (if atParent then GateType.INPUT else GateType.OUTPUT) gates := by
  induction gates with
  | nil => simp [connectionGateLoop, linkedGatesOf]
  | cons g rest ih =>
    rw [connectionGateLoop, List.count_append, ih]
    unfold linkedGatesOf
    rw [List.countP_cons]
    cases hn : g.nextGate with
    | none => simp
    | some d =>
      by_cases ht : g.type = (if atParent then GateType.INPUT else GateType.OUTPUT)
      · simp [ht, count_dumpConnection]; omega
      · simp [ht]

theorem count_connectionLoop (mod : cModule) (subs : List cModule) :
    (connectionLoop mod subs).count (.openTag "connection")
      = (subs.map (fun s => linkedGatesOf GateType.OUTPUT s.gates)).sum
        + linkedGatesOf GateType.INPUT mod.gates := by
  induction subs with
  | nil => simp [connectionLoop, count_connectionGateLoop]
  | cons s rest ih =>
    simp [connectionLoop, List.count_append, count_connectionGateLoop, ih]
    omega

mutual

theorem count_dumpModule (sys : Nat) :
    ∀ mod : cModule,
      (dumpModule sys mod).count (.openTag "connection")
          + linkedGatesOf GateType.OUTPUT mod.gates
        = ((allModules mod).map (fun m => linkedGatesOf GateType.INPUT m.gates)).sum
          + ((allModules mod).map (fun m => linkedGatesOf GateType.OUTPUT m.gates)).sum
  | .mk id parentModule fullName fullPath nedTypeName params properties gates submodules => by
    have ih := count_dumpSubmoduleLoop sys submodules
    have htag : ((if id = sys then "network" else "module") : String) ≠ "connection" := by
      split_ifs <;> decide
    cases submodules with
    | nil =>
      simp [dumpModule, dumpComponentWith, dumpConnections, allModules, allModulesList,
        List.count_cons, List.count_append, count_dumpParameters, count_dumpGates,
        count_connectionLoop, cModule.gates, cModule.submodules, htag]
    | cons s rest =>
      simp only [dumpModule, dumpComponentWith, dumpConnections, allModules,
        List.count_cons, List.count_append, count_dumpParameters, count_dumpGates,
        count_connectionLoop, cModule.gates, cModule.submodules, List.isEmpty_cons,
        Bool.not_false, if_true, List.map_cons, List.sum_cons, List.count_nil] at ih ⊢
      simp only [beq_iff_eq, XMLCall.openTag.injEq, htag, if_false, reduceCtorEq] at ih ⊢
      simp at ih ⊢
      omega

theorem count_dumpSubmoduleLoop (sys : Nat) :
    ∀ subs : List cModule,
      (dumpSubmoduleLoop sys subs).count (.openTag "connection")
          + (subs.map (fun s => linkedGatesOf GateType.OUTPUT s.gates)).sum
        = ((allModulesList subs).map (fun m => linkedGatesOf GateType.INPUT m.gates)).sum
          + ((allModulesList subs).map (fun m => linkedGatesOf GateType.OUTPUT m.gates)).sum
  | [] => by simp [dumpSubmoduleLoop, allModulesList]
  | s :: rest => by
    have h1 := count_dumpModule sys s
    have h2 := count_dumpSubmoduleLoop sys rest
    simp [dumpSubmoduleLoop, allModulesList, List.count_append] at h1 h2 ⊢
    omega

end

theorem moduleElement_eq (sys : Nat) (mod : cModule) :
    moduleElement sys mod
      = .mk (if mod.id = sys then "network" else "module")
          [("name", mod.fullName), ("type", mod.nedTypeName)]
          (parametersElements mod.params mod.properties ++ gatesElements mod.gates
            ++ (if mod.submodules.isEmpty then []
                else [.mk "submodules" [] (moduleElements sys mod.submodules)])
            ++ [connectionsElement mod]) := by
  cases mod
  simp [moduleElement, cModule.id, cModule.fullName, cModule.nedTypeName, cModule.params,
    cModule.properties, cModule.gates, cModule.submodules]

theorem parseCalls_dumpComponent (sys : Nat) (component : cComponent) :
    parseCalls (dumpComponent sys component) = some [componentElement sys component] := by
  rw [dumpComponent_eq_calls]
  exact parseCalls_calls _

theorem renderList_append (p : String) (a b : List Element) :
    Element.renderList p (a ++ b) = Element.renderList p a ++ Element.renderList p b := by
  induction a with
  | nil => simp [Element.renderList]
  | cons e es ih => simp [Element.renderList, ih, String.append_assoc]

theorem render_of_children (p name : String) (attrs : List (String × String))
    (children : List Element) (h : children ≠ []) :
    Element.render p (.mk name attrs children)
      = p ++ "<" ++ name ++ String.join (attrs.map attrText) ++ ">\n"
        ++ Element.renderList (p ++ "    ") children ++ p ++ "</" ++ name ++ ">\n" := by
  cases children with
  | nil => exact absurd rfl h
  | cons c cs => simp [Element.render]

/-- Claim C6: the element `e` that `dumpComponent` writes for a module has a child `gates` if
and only if the module has a gate, a child `submodules` if and only if it has a submodule, and
exactly one child `connections`, `c`; when `c` has no child, its text is `<connections/>` at
its indentation, and the output ends with it and the closing tag of `e`. -/
theorem module_sections (NDEBUG : Bool) (sys : Nat) (mod : cModule) :
    ∃ e c, parseCalls (dumpComponent sys (.module mod)) = some [e]
      ∧ ("gates" ∈ e.children.map Element.name ↔ mod.gates ≠ [])
      ∧ ("submodules" ∈ e.children.map Element.name ↔ mod.submodules ≠ [])
      ∧ e.children.filter (fun x => x.name = "connections") = [c]
      ∧ (c.children = [] ↔ connectionsOf mod = [])
      ∧ (c.children = [] →
          (∀ p : String, Element.render p c = p ++ "<connections/>\n")
          ∧ ∀ (n : Nat) (out : String), ∃ pre : String,
              XMLWriter.run NDEBUG (dumpComponent sys (.module mod))
                  { indent := spaces n, out := out, tagOpen := false }
                = .ok { indent := spaces n
                        out := out ++ pre ++ spaces (n + 4) ++ "<connections/>\n" ++ spaces n
                          ++ "</" ++ e.name ++ ">\n"
                        tagOpen := false }) := by
  refine ⟨moduleElement sys mod, connectionsElement mod, parseCalls_dumpComponent sys _, ?_, ?_,
    ?_, ?_, ?_⟩
  · rw [moduleElement_eq]
    cases hg : mod.gates <;> cases hp : mod.params <;> cases hq : mod.properties <;>
      cases hs : mod.submodules <;>
      simp [Element.children, Element.name, parametersElements, gatesElements,
        connectionsElement]
  · rw [moduleElement_eq]
    cases hg : mod.gates <;> cases hp : mod.params <;> cases hq : mod.properties <;>
      cases hs : mod.submodules <;>
      simp [Element.children, Element.name, parametersElements, gatesElements,
        connectionsElement]
  · rw [moduleElement_eq]
    cases hg : mod.gates <;> cases hp : mod.params <;> cases hq : mod.properties <;>
      cases hs : mod.submodules <;>
      simp [Element.children, Element.name, parametersElements, gatesElements,
        connectionsElement, List.filter_cons]
  · simp [connectionsElement, Element.children]
  · intro hc
    have hr : ∀ p : String, Element.render p (connectionsElement mod) = p ++ "<connections/>\n" := by
      intro p
      have hc' : (connectionsOf mod).map (connectionElement mod) = [] := by
        simpa [connectionsElement, Element.children] using hc
      show Element.render p (.mk "connections" []
        ((connectionsOf mod).map (connectionElement mod))) = _
      rw [hc']
      apply String.ext
      simp [Element.render, String.join]
    refine ⟨hr, fun n out => ?_⟩
    have hrun := run_element NDEBUG (moduleElement sys mod) n out
    rw [← dumpModule_eq_calls] at hrun
    rw [dumpComponent, hrun, moduleElement_eq]
    rw [render_of_children _ _ _ _ (by simp), renderList_append]
    simp only [Element.renderList, hr, Element.name, spaces_append_four]
    refine ⟨spaces n ++ "<" ++ (if mod.id = sys then "network" else "module")
        ++ String.join (List.map attrText [("name", mod.fullName), ("type", mod.nedTypeName)])
        ++ ">\n"
        ++ Element.renderList (spaces (n + 4))
            (parametersElements mod.params mod.properties ++ gatesElements mod.gates
              ++ (if mod.submodules.isEmpty then []
                  else [.mk "submodules" [] (moduleElements sys mod.submodules)])), ?_⟩
    simp [String.append_assoc]
theorem module_sections_witness :
    ∃ e c, parseCalls (dumpComponent 0 (.module sampleLeaf)) = some [e]
      ∧ "gates" ∈ e.children.map Element.name
      ∧ "submodules" ∉ e.children.map Element.name
      ∧ c.children = []
      ∧ ∀ p : String, Element.render p c = p ++ "<connections/>\n" := by
  obtain ⟨e, c, h1, h2, h3, _, h5, h6⟩ := module_sections false 0 sampleLeaf
  have hc : c.children = [] := h5.2 rfl
  exact ⟨e, c, h1, h2.2 (by simp [sampleLeaf, cModule.gates]),
    fun h => h3.1 h rfl, hc, (h6 hc).1⟩

theorem componentElement_children (sys : Nat) (component : cComponent) :
    ∃ rest : List Element,
      (componentElement sys component).children
          = parametersElements component.params component.properties ++ rest
      ∧ ∀ x ∈ rest, x.name ≠ "parameters" := by
  cases component with
  | channel ch =>
    exact ⟨[], by simp [componentElement, channelElement, Element.children, cComponent.params,
      cComponent.properties], by simp⟩
  | module mod =>
    refine ⟨gatesElements mod.gates
        ++ (if mod.submodules.isEmpty then []
            else [.mk "submodules" [] (moduleElements sys mod.submodules)])
        ++ [connectionsElement mod], ?_, ?_⟩
    · simp [componentElement, moduleElement_eq, Element.children, cComponent.params,
        cComponent.properties, List.append_assoc]
    · intro x hx
      simp only [List.mem_append, List.mem_singleton] at hx
      rcases hx with (hx | hx) | hx
      · unfold gatesElements at hx
        split_ifs at hx
        · simp at hx
        · simp only [List.mem_singleton] at hx
          subst hx
          simp [Element.name]
      · split_ifs at hx
        · simp at hx
        · simp only [List.mem_singleton] at hx
          subst hx
          simp [Element.name]
      · subst hx
        simp [connectionsElement, Element.name]

/-- Claim C7: the element `e` that `dumpComponent` writes for a component has a child
`parameters` if and only if the component has a parameter or a property; the children of such
a child are the elements of the properties of the component in order, each named `property`,
followed by the elements of its parameters in order, each named `param`. -/
theorem parameters_section (sys : Nat) (component : cComponent) :
    ∃ e, parseCalls (dumpComponent sys component) = some [e]
      ∧ ("parameters" ∈ e.children.map Element.name
          ↔ component.params ≠ [] ∨ component.properties ≠ [])
      ∧ ∀ pe ∈ e.children, pe.name = "parameters" →
          pe.children
              = component.properties.map propertyElement ++ component.params.map paramElement
          ∧ pe.children.map Element.name
              = List.replicate component.properties.length "property"
                ++ List.replicate component.params.length "param" := by
  obtain ⟨rest, hch, hrest⟩ := componentElement_children sys component
  refine ⟨componentElement sys component, parseCalls_dumpComponent sys _, ?_, ?_⟩
  · rw [hch]
    have hr : "parameters" ∉ rest.map Element.name := by
      intro h
      obtain ⟨x, hx, hn⟩ := List.mem_map.1 h
      exact hrest x hx hn
    rw [List.map_append, List.mem_append]
    cases hp : component.params <;> cases hq : component.properties <;>
      simp [parametersElements, hr] <;> rfl
  · intro pe hpe hname
    rw [hch] at hpe
    rcases List.mem_append.1 hpe with h | h
    · unfold parametersElements at h
      split_ifs at h
      · simp at h
      · simp only [List.mem_singleton] at h
        subst h
        refine ⟨rfl, ?_⟩
        simp only [Element.children, List.map_append, List.map_map]
        congr 1
        · rw [List.eq_replicate_iff]
          simp [propertyElement, Element.name]
        · rw [List.eq_replicate_iff]
          simp [paramElement, Element.name]
    · exact absurd hname (hrest pe h)

theorem parameters_section_witness :
    ∃ e, parseCalls (dumpComponent 0 (.channel sampleChannel)) = some [e]
      ∧ "parameters" ∈ e.children.map Element.name := by
  obtain ⟨e, h1, h2, _⟩ := parameters_section 0 (.channel sampleChannel)
  exact ⟨e, h1, h2.2 (Or.inl (by simp [cComponent.params, sampleChannel]))⟩

theorem moduleElement_connections (sys : Nat) (mod : cModule) :
    (moduleElement sys mod).children.filter (fun x => x.name = "connections")
      = [connectionsElement mod] := by
  rw [moduleElement_eq]
  cases hg : mod.gates <;> cases hp : mod.params <;> cases hq : mod.properties <;>
    cases hs : mod.submodules <;>
    simp [Element.children, Element.name, parametersElements, gatesElements,
      connectionsElement, List.filter_cons]

/-- Claim C8: the element `e` that `dumpComponent` writes for a module `mod` has one child
`connections`, and the children of that child are, in the order of the connection scan, one
element `connection` for each link reported.  Its attributes are, in this order: `src-module`,
left out when the source module is `mod`, else the short name of the source module when its
parent is `mod`, else its full path; `src-gate` with the short name of the source gate;
`dest-module` by the same rule for the destination module; `dest-gate` with the short name of
the destination gate. -/
theorem connection_attributes (sys : Nat) (mod : cModule) :
    ∃ e c, parseCalls (dumpComponent sys (.module mod)) = some [e]
      ∧ e.children.filter (fun x => x.name = "connections") = [c]
      ∧ c.children.map Element.name = (connectionsOf mod).map (fun _ => "connection")
      ∧ c.children.map Element.attrs = (connectionsOf mod).map (fun conn =>
          (if conn.srcmod.id = mod.id then []
            else if conn.srcmod.parentModule = some mod.id then
              [("src-module", conn.srcmod.fullName)]
            else [("src-module", conn.srcmod.fullPath)])
          ++ [("src-gate", conn.srcgate.fullName)]
          ++ (if conn.destgate.ownerModule.id = mod.id then []
              else if conn.destgate.ownerModule.parentModule = some mod.id then
                [("dest-module", conn.destgate.ownerModule.fullName)]
              else [("dest-module", conn.destgate.ownerModule.fullPath)])
          ++ [("dest-gate", conn.destgate.fullName)]) := by
  refine ⟨moduleElement sys mod, connectionsElement mod, parseCalls_dumpComponent sys _,
    moduleElement_connections sys mod, ?_, ?_⟩
  · simp [connectionsElement, Element.children, connectionElement, Element.name,
      Function.comp_def]
  · simp [connectionsElement, Element.children, connectionElement, Element.attrs,
      Function.comp_def, connectionAttrs, endAttr]

/-- Claim C9: the string that `dumpProperties` assembles for the attribute `value` of a
property is the segments of its keys, in order, joined with `;`, where the segment of a key is
the key and `=` if the key is not empty, followed by the values of the key, each passed through
`quote`, joined with `,`; and `dumpProperties` writes one element `property` without children
for each property, in order, with the attributes `name` and `value`: on a writer with an
indentation of `n` blanks the text written, after the end of a tag that was still open, is one
tag closed in itself for each property. -/
theorem dumpProperties_elements (NDEBUG : Bool) (props : List cProperty) :
    (∀ prop : cProperty,
      propertyValue prop
        = ";".intercalate (prop.keys.map (fun key =>
            (if key ≠ "" then key ++ "=" else "")
              ++ ",".intercalate ((prop.values key).map quote))))
    ∧ parseCalls (dumpProperties props)
        = some (props.map (fun prop =>
            Element.mk "property" [("name", prop.fullName), ("value", propertyValue prop)] []))
    ∧ ∀ (n : Nat) (out : String) (b : Bool),
        XMLWriter.run NDEBUG (dumpProperties props) { indent := spaces n, out := out, tagOpen := b }
          = .ok { indent := spaces n
                  out := out ++ (if b && !props.isEmpty then ">\n" else "")
                    ++ String.join (props.map (fun prop =>
                      spaces n ++ "<property name=\"" ++ xmlquote prop.fullName
                        ++ "\" value=\"" ++ xmlquote (propertyValue prop) ++ "\"/>\n"))
                  tagOpen := b && props.isEmpty } := by
  refine ⟨fun prop => propertyValue_eq_intercalate prop, ?_, fun n out b => ?_⟩
  · rw [dumpProperties_eq_calls, parseCalls_callsList]
    rfl
  · have h := run_callsList NDEBUG (props.map propertyElement) [] n out b
    simp only [List.append_nil, XMLWriter.run] at h
    rw [dumpProperties_eq_calls, h]
    have hr : ∀ l : List cProperty,
        Element.renderList (spaces n) (l.map propertyElement)
          = String.join (l.map (fun prop =>
              spaces n ++ "<property name=\"" ++ xmlquote prop.fullName ++ "\" value=\""
                ++ xmlquote (propertyValue prop) ++ "\"/>\n")) := by
      intro l
      induction l with
      | nil => simp [Element.renderList, String.join]
      | cons p rest ih =>
        simp only [List.map_cons, Element.renderList, string_join_cons, ih]
        congr 1
        apply String.ext
        simp [propertyElement, Element.render, attrText, string_join_cons, String.join]
    have he : (props.map propertyElement).isEmpty = props.isEmpty := by
      cases props <;> rfl
    rw [hr, he]

theorem dumpProperties_elements_witness :
    propertyValue sampleProperty = "\"a,b\",c;k=\"d;e\""
    ∧ XMLWriter.run false (dumpProperties [sampleProperty])
          { indent := spaces 4, out := "", tagOpen := false }
        = .ok { indent := spaces 4
                out := "    <property name=\"display\" "
                  ++ "value=\"&quot;a,b&quot;,c;k=&quot;d;e&quot;\"/>\n"
                tagOpen := false } := by
  obtain ⟨h1, _, h3⟩ := dumpProperties_elements false [sampleProperty]
  refine ⟨by rw [h1 sampleProperty]; decide, ?_⟩
  rw [h3 4 "" false]
  rfl

/-! ## The writer methods one by one -/

theorem replace_eq (t : String) :
    replace t "long" "int" = if t = "long" then "int" else t := by
  unfold replace
  rfl

/-- Claim C11: the attribute `type` of the element `param` of a parameter is `int` when the
type name of the parameter is `long`, and the type name itself for every other type name, one
that only contains `long` among them: `replace t "long" "int"` is `int` if `t` is `long`, and
`t` otherwise. -/
theorem param_type_attribute (p : cPar) :
    (∀ t : String, replace t "long" "int" = if t = "long" then "int" else t)
    ∧ replace "longlong" "long" "int" = "longlong"
    ∧ ∃ e, parseCalls (dumpParams [p]) = some [e]
      ∧ e.name = "param"
      ∧ e.attrs = [("name", p.fullName),
          ("type", if p.typeName = "long" then "int" else p.typeName), ("value", p.str)] := by
  refine ⟨replace_eq, by decide, paramElement p, ?_, rfl, ?_⟩
  · rw [dumpParams_eq_calls]
    exact parseCalls_callsList _
  · simp [paramElement, Element.attrs, replace_eq]

/-- Claim C12, as the code has it: in a build without `NDEBUG`, `writeAttr` with a textual
value throws if and only if `tagOpen` is false, and the call that throws leaves the writer
object as it was, with nothing added to the output; in every build, when `tagOpen` is true the
call returns and leaves the state with a blank, the name, `="`, the quoted value and `"` added
to the output, and with `indent` and `tagOpen` as they were.  In a build with `NDEBUG` the
assertion is empty and the call returns with that text added whatever `tagOpen` is. -/
theorem writeAttr_outcome (NDEBUG : Bool) (xml : XMLWriter) (attrName value : String) :
    (NDEBUG = false →
      ((∃ e, xml.writeAttr NDEBUG attrName value = .error e) ↔ xml.tagOpen = false)
      ∧ (xml.tagOpen = false →
          xml.writeAttrOutcome NDEBUG attrName value
            = { xml := xml, thrown := some .assertion }))
    ∧ (xml.tagOpen = true →
        xml.writeAttrOutcome NDEBUG attrName value
          = { xml := { indent := xml.indent
                       out := xml.out ++ " " ++ attrName ++ "=\"" ++ xmlquote value ++ "\""
                       tagOpen := xml.tagOpen }
              thrown := none }
        ∧ xml.writeAttr NDEBUG attrName value
          = .ok { indent := xml.indent
                  out := xml.out ++ " " ++ attrName ++ "=\"" ++ xmlquote value ++ "\""
                  tagOpen := xml.tagOpen })
    ∧ (NDEBUG = true →
        xml.writeAttr NDEBUG attrName value
          = .ok { indent := xml.indent
                  out := xml.out ++ " " ++ attrName ++ "=\"" ++ xmlquote value ++ "\""
                  tagOpen := xml.tagOpen }) := by
  cases NDEBUG <;> cases h : xml.tagOpen <;>
    simp [XMLWriter.writeAttr, XMLWriter.writeAttrOutcome, XMLWriter.writeAttrBody,
      XMLWriter.execStmts, XMLWriter.ASSERT, XMLWriter.Outcome.result, h]

theorem writeAttr_outcome_witness :
    ({ indent := "    ", out := "<gate", tagOpen := true } : XMLWriter).writeAttr false
        "name" "a<b"
        = .ok { indent := "    ", out := "<gate name=\"a&lt;b\"", tagOpen := true }
    ∧ ({ indent := "", out := "<gate/>\n", tagOpen := false } : XMLWriter).writeAttrOutcome
        false "name" "in"
        = { xml := { indent := "", out := "<gate/>\n", tagOpen := false },
            thrown := some .assertion } := by
  refine ⟨?_, ((writeAttr_outcome false _ "name" "in").1 rfl).2 rfl⟩
  rw [((writeAttr_outcome false _ "name" "a<b").2.1 rfl).2]
  rfl

/-- Claim C12 fails as stated: in a build with `NDEBUG` the call of `writeAttr` in a state
where `tagOpen` is false does not throw, and adds the attribute to the output. -/
theorem writeAttr_ndebug_counterexample :
    ({ indent := "", out := "<gate/>\n", tagOpen := false } : XMLWriter).writeAttr true
        "name" "in"
      = .ok { indent := "", out := "<gate/>\n name=\"in\"", tagOpen := false } := by
  rfl

/-- Claim C13: in a writer state whose indentation holds at least four characters `closeTag`
does not throw: it takes the first four characters off the indentation, then adds `/>` and a
line end to the output if `tagOpen` is true, and otherwise the shortened indentation, `</`,
the name, `>` and a line end; afterwards `tagOpen` is false.  For an indentation of `n + 4`
blanks what is taken off is one unit of four blanks.  No name is compared: after `openTag`
with one name `closeTag` with any other name gives the same state as with that name. -/
theorem closeTag_outcome (xml : XMLWriter) (tagName : String) (h : 4 ≤ xml.indent.length) :
    xml.closeTag tagName
        = .ok { indent := ⟨xml.indent.data.drop 4⟩
                out := if xml.tagOpen then xml.out ++ "/>\n"
                  else xml.out ++ (⟨xml.indent.data.drop 4⟩ : String) ++ "</" ++ tagName ++ ">\n"
                tagOpen := false }
    ∧ (∀ n : Nat, xml.indent = spaces (n + 4) →
        (⟨xml.indent.data.drop 4⟩ : String) = spaces n
        ∧ xml.indent = spaces n ++ "    ")
    ∧ ∀ opened other : String, ∀ xml0 : XMLWriter,
        (xml0.openTag opened).closeTag other = (xml0.openTag opened).closeTag opened := by
  refine ⟨?_, ?_, ?_⟩
  · unfold XMLWriter.closeTag
    rw [if_neg (by omega)]
  · intro n hn
    rw [hn]
    exact ⟨spaces_drop_four n, (spaces_append_four n).symm⟩
  · intro opened other xml0
    simp [XMLWriter.closeTag, XMLWriter.openTag]

theorem closeTag_outcome_witness :
    ({ indent := spaces 8, out := "x", tagOpen := false } : XMLWriter).closeTag "gates"
      = .ok { indent := spaces 4, out := "x    </gates>\n", tagOpen := false } := by
  rw [(closeTag_outcome { indent := spaces 8, out := "x", tagOpen := false } "gates"
    (by decide)).1]
  rfl

theorem mem_dumpProperties (props : List cProperty) (c : XMLCall) (h : c ∈ dumpProperties props) :
    c = .openTag "property" ∨ c = .closeTag "property" ∨ ∃ a v, c = .writeAttr a v := by
  induction props with
  | nil => simp [dumpProperties] at h
  | cons p rest ih =>
    simp only [dumpProperties, List.mem_append, List.mem_cons, List.mem_singleton,
      List.not_mem_nil, or_false] at h
    rcases h with (h | h | h | h) | h
    · exact Or.inl h
    · exact Or.inr (Or.inr ⟨_, _, h⟩)
    · exact Or.inr (Or.inr ⟨_, _, h⟩)
    · exact Or.inr (Or.inl h)
    · exact ih h

theorem mem_dumpParams (params : List cPar) (c : XMLCall) (h : c ∈ dumpParams params) :
    c = .openTag "property" ∨ c = .closeTag "property" ∨ c = .openTag "param"
      ∨ c = .closeTag "param" ∨ ∃ a v, c = .writeAttr a v := by
  induction params with
  | nil => simp [dumpParams] at h
  | cons p rest ih =>
    simp only [dumpParams, List.mem_append, List.mem_cons, List.mem_singleton,
      List.not_mem_nil, or_false] at h
    rcases h with (((h | h | h | h) | h) | h) | h
    · exact Or.inr (Or.inr (Or.inl h))
    · exact Or.inr (Or.inr (Or.inr (Or.inr ⟨_, _, h⟩)))
    · exact Or.inr (Or.inr (Or.inr (Or.inr ⟨_, _, h⟩)))
    · exact Or.inr (Or.inr (Or.inr (Or.inr ⟨_, _, h⟩)))
    · rcases mem_dumpProperties _ _ h with h | h | h
      · exact Or.inl h
      · exact Or.inr (Or.inl h)
      · exact Or.inr (Or.inr (Or.inr (Or.inr h)))
    · exact Or.inr (Or.inr (Or.inr (Or.inl h)))
    · exact ih h

theorem openTag_mem_dumpParameters (params : List cPar) (props : List cProperty)
    (tagName : String) (h : XMLCall.openTag tagName ∈ dumpParameters params props) :
    tagName = "parameters" ∨ tagName = "property" ∨ tagName = "param" := by
  unfold dumpParameters at h
  split_ifs at h
  · rw [List.mem_append, List.mem_append, List.mem_append] at h
    rcases h with ((h | h) | h) | h
    · simp only [List.mem_singleton, XMLCall.openTag.injEq] at h
      exact Or.inl h
    · rcases mem_dumpProperties _ _ h with h | h | ⟨a, v, h⟩
      · simp only [XMLCall.openTag.injEq] at h
        exact Or.inr (Or.inl h)
      · simp at h
      · simp at h
    · rcases mem_dumpParams _ _ h with h | h | h | h | ⟨a, v, h⟩
      · simp only [XMLCall.openTag.injEq] at h
        exact Or.inr (Or.inl h)
      · simp at h
      · simp only [XMLCall.openTag.injEq] at h
        exact Or.inr (Or.inr h)
      · simp at h
      · simp at h
    · simp at h
  · simp at h

theorem openTag_mem_dumpChannel (ch : cChannel) (tagName : String)
    (h : XMLCall.openTag tagName ∈ dumpChannel ch) :
    tagName = "channel" ∨ tagName = "parameters" ∨ tagName = "property" ∨ tagName = "param" := by
  unfold dumpChannel dumpComponentWith at h
  rw [List.mem_append, List.mem_append, List.mem_append] at h
  rcases h with ((h | h) | h) | h
  · simp only [List.mem_cons, XMLCall.openTag.injEq, List.mem_singleton, reduceCtorEq,
      or_false, List.not_mem_nil] at h
    exact Or.inl h
  · exact Or.inr (openTag_mem_dumpParameters _ _ _ h)
  · simp at h
  · simp at h

/-- Claim C14: the call sequence of `dumpComponent` for a component reads as one element; its
name is `network` if the component is the system module, else `module` if it is a module, else
`channel`; its attributes start with `name`, holding the short name of the component, and
`type`, holding its type name, in this order; and for a component that is not a module no
element `gates`, `submodules` or `connections` is opened. -/
theorem component_tag (sys : Nat) (component : cComponent) :
    ∃ e, parseCalls (dumpComponent sys component) = some [e]
      ∧ e.name = (match component with
          | .module mod => if mod.id = sys then "network" else "module"
          | .channel _ => "channel")
      ∧ e.attrs.take 2 = (match component with
          | .module mod => [("name", mod.fullName), ("type", mod.nedTypeName)]
          | .channel ch => [("name", ch.fullName), ("type", ch.nedTypeName)])
      ∧ ∀ ch : cChannel, component = .channel ch →
          XMLCall.openTag "gates" ∉ dumpComponent sys component
          ∧ XMLCall.openTag "submodules" ∉ dumpComponent sys component
          ∧ XMLCall.openTag "connections" ∉ dumpComponent sys component := by
  refine ⟨componentElement sys component, parseCalls_dumpComponent sys component, ?_, ?_, ?_⟩
  · cases component with
    | module mod => simp [componentElement, moduleElement_eq, Element.name]
    | channel ch => simp [componentElement, channelElement, Element.name]
  · cases component with
    | module mod => simp [componentElement, moduleElement_eq, Element.attrs]
    | channel ch => simp [componentElement, channelElement, Element.attrs]
  · intro ch hc
    subst hc
    simp only [dumpComponent]
    refine ⟨fun h => ?_, fun h => ?_, fun h => ?_⟩ <;>
      · have := openTag_mem_dumpChannel ch _ h
        revert this
        decide

theorem component_tag_witness :
    ∃ e, parseCalls (dumpComponent 0 (.channel sampleLink)) = some [e]
      ∧ e.name = "channel"
      ∧ XMLCall.openTag "connections" ∉ dumpComponent 0 (.channel sampleLink) := by
  obtain ⟨e, h1, h2, _, h4⟩ := component_tag 0 (.channel sampleLink)
  exact ⟨e, h1, h2, (h4 sampleLink rfl).2.2⟩

theorem run_indent_blank (NDEBUG : Bool) (calls : List XMLCall) (xml0 xml : XMLWriter)
    (k0 : Nat) (h0 : xml0.indent = spaces (4 * k0))
    (h : XMLWriter.run NDEBUG calls xml0 = .ok xml) : ∃ k, xml.indent = spaces (4 * k) := by
  induction calls generalizing xml0 k0 with
  | nil =>
    simp only [XMLWriter.run, Except.ok.injEq] at h
    exact ⟨k0, h ▸ h0⟩
  | cons c cs ih =>
    rw [XMLWriter.run] at h
    cases hs : xml0.step NDEBUG c with
    | error e => simp [hs] at h
    | ok xml1 =>
      simp only [hs] at h
      cases c with
      | openTag tagName =>
        simp only [XMLWriter.step, Except.ok.injEq] at hs
        refine ih xml1 (k0 + 1) ?_ h
        rw [← hs]
        simp only [XMLWriter.openTag, h0, spaces_append_four]
        rfl
      | writeAttr a v =>
        simp only [XMLWriter.step, writeAttr_eq] at hs
        split_ifs at hs
        simp only [Except.ok.injEq] at hs
        refine ih xml1 k0 ?_ h
        rw [← hs]
        exact h0
      | closeTag tagName =>
        simp only [XMLWriter.step, XMLWriter.closeTag] at hs
        by_cases hlen : xml0.indent.length < 4
        · rw [if_pos hlen] at hs
          simp at hs
        · rw [if_neg hlen] at hs
          simp only [Except.ok.injEq] at hs
          rw [h0, spaces_length] at hlen
          obtain ⟨k1, rfl⟩ : ∃ k1, k0 = k1 + 1 := ⟨k0 - 1, by omega⟩
          refine ih xml1 k1 ?_ h
          rw [← hs]
          show (⟨xml0.indent.data.drop 4⟩ : String) = spaces (4 * k1)
          rw [h0, show 4 * (k1 + 1) = 4 * k1 + 4 from by ring]
          exact spaces_drop_four _

theorem indent_of_ctor (NDEBUG : Bool) (calls : List XMLCall) (out0 : String) (xml : XMLWriter)
    (h : XMLWriter.run NDEBUG calls (XMLWriter.ctor out0) = .ok xml) :
    ∃ k, xml.indent = spaces (4 * k) :=
  run_indent_blank NDEBUG calls (XMLWriter.ctor out0) xml 0 rfl h

/-- Claim C15: for every element tree `e`, the calls `openTag`, `writeAttr` for the
attributes, the calls for the children in order, `closeTag`, performed on a writer in a state
with indentation `p` and no tag open, do not throw, add exactly the text of the reference
renderer to the output and leave the writer with indentation `p` and no tag open.  This holds
for every state that a writer reaches from its constructor, and for every state whose
indentation is `n` blanks.  The renderer gives `p`, `<name`, the attributes, `/>` and a line
end for an element without children, and for an element with children `p`, `<name`, the
attributes, `>`, a line end, the children at `p` and four blanks, `p`, `</name>` and a line
end. -/
theorem writer_refines_renderer (NDEBUG : Bool) (e : Element) (n : Nat) (out : String) :
    XMLWriter.run NDEBUG e.calls { indent := spaces n, out := out, tagOpen := false }
        = .ok { indent := spaces n, out := out ++ Element.render (spaces n) e,
                tagOpen := false }
    ∧ (∀ (p name : String) (attrs : List (String × String)),
        Element.render p (.mk name attrs [])
          = p ++ "<" ++ name ++ String.join (attrs.map attrText) ++ "/>\n")
    ∧ (∀ (p name : String) (attrs : List (String × String)) (c : Element) (cs : List Element),
        Element.render p (.mk name attrs (c :: cs))
          = p ++ "<" ++ name ++ String.join (attrs.map attrText) ++ ">\n"
            ++ Element.renderList (p ++ "    ") (c :: cs) ++ p ++ "</" ++ name ++ ">\n")
    ∧ (∀ p : String, Element.renderList p [] = "")
    ∧ (∀ (p : String) (c : Element) (cs : List Element),
        Element.renderList p (c :: cs) = Element.render p c ++ Element.renderList p cs)
    ∧ (∀ (calls : List XMLCall) (out0 : String) (xml : XMLWriter),
        XMLWriter.run NDEBUG calls (XMLWriter.ctor out0) = .ok xml → xml.tagOpen = false →
        XMLWriter.run NDEBUG e.calls xml
          = .ok { indent := xml.indent, out := xml.out ++ Element.render xml.indent e,
                  tagOpen := false }) := by
  refine ⟨run_element NDEBUG e n out, ?_, ?_, ?_, ?_, ?_⟩
  · intro p name attrs
    simp [Element.render]
  · intro p name attrs c cs
    simp [Element.render]
  · intro p
    simp [Element.renderList]
  · intro p c cs
    simp [Element.renderList]
  · intro calls out0 xml hreach hclosed
    obtain ⟨k, hk⟩ := indent_of_ctor NDEBUG calls out0 xml hreach
    obtain ⟨indent, o, b⟩ := xml
    simp only at hk hclosed
    subst hk hclosed
    exact run_element NDEBUG e (4 * k) o

theorem writer_refines_renderer_witness :
    XMLWriter.run false [.openTag "x", .closeTag "x"] (XMLWriter.ctor "") = .ok
        { indent := "", out := "<x/>\n", tagOpen := false }
    ∧ XMLWriter.run false sampleNested.calls { indent := "", out := "<x/>\n", tagOpen := false }
        = .ok { indent := "", out := "<x/>\n" ++ "<a>\n    <b/>\n</a>\n", tagOpen := false } := by
  refine ⟨rfl, ?_⟩
  rw [(writer_refines_renderer false sampleNested 0 "").2.2.2.2.2
    [.openTag "x", .closeTag "x"] "" { indent := "", out := "<x/>\n", tagOpen := false } rfl
    rfl]
  rfl

theorem run_ok_split (NDEBUG : Bool) (pre post : List XMLCall) (call : XMLCall)
    (xml xml1 : XMLWriter)
    (h : XMLWriter.run NDEBUG (pre ++ call :: post) xml = .ok xml1) :
    ∃ x y, XMLWriter.run NDEBUG pre xml = .ok x ∧ x.step NDEBUG call = .ok y := by
  rw [run_append] at h
  cases hp : XMLWriter.run NDEBUG pre xml with
  | error e => simp [hp] at h
  | ok x =>
    simp only [hp, XMLWriter.run] at h
    cases hs : x.step NDEBUG call with
    | error e => simp [hs] at h
    | ok y => exact ⟨x, y, rfl, hs⟩

theorem step_of_debug (NDEBUG : Bool) (xml y : XMLWriter) (c : XMLCall)
    (h : xml.step false c = .ok y) : xml.step NDEBUG c = .ok y := by
  cases c with
  | openTag tagName => exact h
  | closeTag tagName => exact h
  | writeAttr a v =>
    simp only [XMLWriter.step, writeAttr_eq] at h ⊢
    by_cases ht : xml.tagOpen = true
    · rw [if_pos (by simp [ht])] at h ⊢
      exact h
    · rw [if_neg (by simp [ht])] at h
      simp at h

theorem run_of_debug (NDEBUG : Bool) (calls : List XMLCall) (xml y : XMLWriter)
    (h : XMLWriter.run false calls xml = .ok y) : XMLWriter.run NDEBUG calls xml = .ok y := by
  induction calls generalizing xml with
  | nil => exact h
  | cons c cs ih =>
    rw [XMLWriter.run] at h ⊢
    cases hs : xml.step false c with
    | error e => simp [hs] at h
    | ok xml1 =>
      simp only [hs] at h
      rw [step_of_debug NDEBUG xml xml1 c hs]
      exact ih xml1 h

/-- Claim C16: on a writer just constructed `dumpComponent` runs to its end without a throw
of the writer, and at every call of the sequence the precondition of the call holds in the
state the calls in front of it have led to: `tagOpen` is true at every `writeAttr`, and the
indentation holds at least four characters at every `closeTag`. -/
theorem dumpComponent_safe (NDEBUG : Bool) (sys : Nat) (component : cComponent)
    (out : String) :
    (∃ xml, XMLWriter.run NDEBUG (dumpComponent sys component) (XMLWriter.ctor out) = .ok xml)
    ∧ ∀ (pre post : List XMLCall) (call : XMLCall),
        dumpComponent sys component = pre ++ call :: post →
        ∃ x, XMLWriter.run NDEBUG pre (XMLWriter.ctor out) = .ok x
          ∧ (∀ a v, call = .writeAttr a v → x.tagOpen = true)
          ∧ (∀ t, call = .closeTag t → 4 ≤ x.indent.length) := by
  have hrun : XMLWriter.run false (dumpComponent sys component) (XMLWriter.ctor out)
      = .ok { indent := spaces 0,
              out := out ++ Element.render (spaces 0) (componentElement sys component),
              tagOpen := false } := by
    rw [dumpComponent_eq_calls]
    exact run_element false _ 0 out
  refine ⟨⟨_, run_of_debug NDEBUG _ _ _ hrun⟩, fun pre post call hsplit => ?_⟩
  rw [hsplit] at hrun
  obtain ⟨x, y, hx, hy⟩ := run_ok_split false pre post call _ _ hrun
  refine ⟨x, run_of_debug NDEBUG _ _ _ hx, fun a v hc => ?_, fun t hc => ?_⟩
  · subst hc
    simp only [XMLWriter.step, writeAttr_eq, Bool.false_or] at hy
    by_contra hn
    simp [hn] at hy
  · subst hc
    simp only [XMLWriter.step, XMLWriter.closeTag] at hy
    by_contra hn
    rw [if_pos (by omega)] at hy
    simp at hy

/-- Claim C17: the assembled value does not determine the property: `oneValue`, with the one
value `a,b`, and `twoValues`, with the two values `"a` and `b"` under the same key, give the
same string, `a,b` between double quotes. -/
theorem propertyValue_not_injective :
    oneValue.keys = twoValues.keys
    ∧ oneValue.values "" = ["a,b"]
    ∧ twoValues.values "" = ["\"a", "b\""]
    ∧ oneValue.values "" ≠ twoValues.values ""
    ∧ propertyValue oneValue = "\"a,b\""
    ∧ propertyValue twoValues = "\"a,b\""
    ∧ dumpProperties [oneValue] = dumpProperties [twoValues] := by
  decide

/-! ## The escaped text determines the value and holds no markup -/

theorem xmlquote_data_of_nul_free (s : String) (h0 : NUL ∉ s.data) :
    (xmlquote s).data = (s.data.map (fun c => (xmlquoteChar c).data)).flatten := by
  by_cases hs : '<' ∈ s.data ∨ '>' ∈ s.data ∨ '"' ∈ s.data ∨ '&' ∈ s.data
  · rw [xmlquote_of_some s (by rw [c_str_of_nul_free s h0]; exact hs), c_str_of_nul_free s h0]
    have := xmlquoteLoop_data s.data ""
    rw [xmlquoteLoop_eq] at this
    simpa using this
  · push_neg at hs
    obtain ⟨h1, h2, h3, h4⟩ := hs
    rw [xmlquote_of_none s (by rw [c_str_of_nul_free s h0]; exact ⟨h1, h2, h3, h4⟩)]
    have hl : ∀ l : List Char, '<' ∉ l → '>' ∉ l → '"' ∉ l → '&' ∉ l →
        l = (l.map (fun c => (xmlquoteChar c).data)).flatten := by
      intro l
      induction l with
      | nil => simp
      | cons c l ih =>
        intro a1 a2 a3 a4
        simp only [List.mem_cons, not_or] at a1 a2 a3 a4
        have hc : (xmlquoteChar c).data = [c] := by
          simp [xmlquoteChar, Ne.symm a1.1, Ne.symm a2.1, Ne.symm a3.1, Ne.symm a4.1,
            String.singleton]
        simp only [List.map_cons, List.flatten_cons, hc, List.singleton_append]
        rw [← ih a1.2 a2.2 a3.2 a4.2]
    exact hl s.data h1 h2 h3 h4

theorem xmlquoteChar_cancel (c d : Char) (r1 r2 : List Char)
    (h : (xmlquoteChar c).data ++ r1 = (xmlquoteChar d).data ++ r2) : c = d ∧ r1 = r2 := by
  unfold xmlquoteChar at h
  split_ifs at h <;> simp_all [String.singleton]
  all_goals exact absurd h.1.symm (by assumption)

theorem flatten_xmlquoteChar_injective (s t : List Char)
    (h : (s.map (fun c => (xmlquoteChar c).data)).flatten
      = (t.map (fun c => (xmlquoteChar c).data)).flatten) : s = t := by
  induction s generalizing t with
  | nil =>
    cases t with
    | nil => rfl
    | cons d t =>
      have := flatten_length_ge (d :: t)
      rw [← h] at this
      simp at this
  | cons c s ih =>
    cases t with
    | nil =>
      have := flatten_length_ge (c :: s)
      rw [h] at this
      simp at this
    | cons d t =>
      simp only [List.map_cons, List.flatten_cons] at h
      obtain ⟨h1, h2⟩ := xmlquoteChar_cancel c d _ _ h
      rw [h1, ih t h2]

/-- Claim C18, as the code has it: on the strings without a `NUL` character `xmlquote` is
injective. -/
theorem xmlquote_injective (s t : String) (hs : NUL ∉ s.data) (ht : NUL ∉ t.data)
    (h : xmlquote s = xmlquote t) : s = t := by
  apply String.ext
  apply flatten_xmlquoteChar_injective
  rw [← xmlquote_data_of_nul_free s hs, ← xmlquote_data_of_nul_free t ht, h]

theorem xmlquote_injective_witness :
    xmlquote "a&lt;" = "a&amp;lt;" ∧ xmlquote "a<" = "a&lt;" ∧ ("a&" ++ "lt;" : String) = "a&lt;" :=
  ⟨by decide, by decide,
    xmlquote_injective ("a&" ++ "lt;") "a&lt;" (by decide) (by decide) (by decide)⟩

/-- Claim C18 fails as stated: the strings `<`, `NUL`, `a` and `<` differ and have the same
image under `xmlquote`. -/
theorem xmlquote_injective_counterexample :
    xmlquote (String.mk ['<', NUL, 'a']) = xmlquote "<"
    ∧ String.mk ['<', NUL, 'a'] ≠ "<" := by
  decide

theorem xmlquoteChar_data_cases (c : Char) :
    (xmlquoteChar c).data = ['&', 'l', 't', ';'] ∨ (xmlquoteChar c).data = ['&', 'g', 't', ';']
    ∨ (xmlquoteChar c).data = ['&', 'q', 'u', 'o', 't', ';']
    ∨ (xmlquoteChar c).data = ['&', 'a', 'm', 'p', ';']
    ∨ ((xmlquoteChar c).data = [c] ∧ c ≠ '<' ∧ c ≠ '>' ∧ c ≠ '"' ∧ c ≠ '&') := by
  unfold xmlquoteChar
  split_ifs with h1 h2 h3 h4
  · exact Or.inl rfl
  · exact Or.inr (Or.inl rfl)
  · exact Or.inr (Or.inr (Or.inl rfl))
  · exact Or.inr (Or.inr (Or.inr (Or.inl rfl)))
  · exact Or.inr (Or.inr (Or.inr (Or.inr ⟨by simp [String.singleton], h1, h2, h3, h4⟩)))

theorem mem_xmlquoteChar (c x : Char) (h : x ∈ (xmlquoteChar c).data) :
    x ≠ '<' ∧ x ≠ '>' ∧ x ≠ '"' := by
  rcases xmlquoteChar_data_cases c with hd | hd | hd | hd | ⟨hd, h1, h2, h3, _⟩ <;> rw [hd] at h
  · revert x; decide
  · revert x; decide
  · revert x; decide
  · revert x; decide
  · simp only [List.mem_singleton] at h
    subst h
    exact ⟨h1, h2, h3⟩

theorem entity_after_amp (l : List Char) (pre post : List Char)
    (h : (l.map (fun c => (xmlquoteChar c).data)).flatten = pre ++ '&' :: post) :
    ∃ rest, post = 'l' :: 't' :: ';' :: rest ∨ post = 'g' :: 't' :: ';' :: rest
      ∨ post = 'q' :: 'u' :: 'o' :: 't' :: ';' :: rest
      ∨ post = 'a' :: 'm' :: 'p' :: ';' :: rest := by
  induction l generalizing pre with
  | nil => simp at h
  | cons c l ih =>
    simp only [List.map_cons, List.flatten_cons] at h
    rcases xmlquoteChar_data_cases c with hd | hd | hd | hd | ⟨hd, _, _, _, h4⟩ <;>
      rw [hd] at h
    · match pre, h with
      | [], h => exact ⟨_, Or.inl (by simpa using h.symm)⟩
      | [_], h => simp at h
      | [_, _], h => simp at h
      | [_, _, _], h => simp at h
      | _ :: _ :: _ :: _ :: pre4, h =>
        exact ih pre4 (by simp at h; exact h.2.2.2.2)
    · match pre, h with
      | [], h => exact ⟨_, Or.inr (Or.inl (by simpa using h.symm))⟩
      | [_], h => simp at h
      | [_, _], h => simp at h
      | [_, _, _], h => simp at h
      | _ :: _ :: _ :: _ :: pre4, h =>
        exact ih pre4 (by simp at h; exact h.2.2.2.2)
    · match pre, h with
      | [], h => exact ⟨_, Or.inr (Or.inr (Or.inl (by simpa using h.symm)))⟩
      | [_], h => simp at h
      | [_, _], h => simp at h
      | [_, _, _], h => simp at h
      | [_, _, _, _], h => simp at h
      | [_, _, _, _, _], h => simp at h
      | _ :: _ :: _ :: _ :: _ :: _ :: pre6, h =>
        exact ih pre6 (by simp at h; exact h.2.2.2.2.2.2)
    · match pre, h with
      | [], h => exact ⟨_, Or.inr (Or.inr (Or.inr (by simpa using h.symm)))⟩
      | [_], h => simp at h
      | [_, _], h => simp at h
      | [_, _, _], h => simp at h
      | [_, _, _, _], h => simp at h
      | _ :: _ :: _ :: _ :: _ :: pre5, h =>
        exact ih pre5 (by simp at h; exact h.2.2.2.2.2)
    · match pre, h with
      | [], h =>
        simp only [List.singleton_append, List.nil_append, List.cons.injEq] at h
        exact absurd h.1 h4
      | _ :: pre1, h =>
        exact ih pre1 (by simp at h; exact h.2)

/-- Claim C19, as the code has it: for every string `s` without a `NUL` character,
`xmlquote s` contains none of the characters `<`, `>` and `"`, and what follows an `&` in it
begins with `lt;`, `gt;`, `quot;` or `amp;`; so the text that `writeAttr` adds for the value
`s` is the name and the escaped value between two double quotes, and the escaped value holds
no double quote and no `<`. -/
theorem xmlquote_no_markup (s : String) (h0 : NUL ∉ s.data) :
    '<' ∉ (xmlquote s).data ∧ '>' ∉ (xmlquote s).data ∧ '"' ∉ (xmlquote s).data
    ∧ (∀ pre post : List Char, (xmlquote s).data = pre ++ '&' :: post →
        ∃ rest, post = 'l' :: 't' :: ';' :: rest ∨ post = 'g' :: 't' :: ';' :: rest
          ∨ post = 'q' :: 'u' :: 'o' :: 't' :: ';' :: rest
          ∨ post = 'a' :: 'm' :: 'p' :: ';' :: rest)
    ∧ ∀ (NDEBUG : Bool) (xml : XMLWriter) (attrName : String), xml.tagOpen = true →
        xml.writeAttr NDEBUG attrName s
          = .ok { indent := xml.indent
                  out := xml.out ++ " " ++ attrName ++ "=\"" ++ xmlquote s ++ "\""
                  tagOpen := true } := by
  have hmem : ∀ x, x ∈ (xmlquote s).data → x ≠ '<' ∧ x ≠ '>' ∧ x ≠ '"' := by
    intro x hx
    rw [xmlquote_data_of_nul_free s h0, List.mem_flatten] at hx
    obtain ⟨l, hl, hxl⟩ := hx
    obtain ⟨c, _, rfl⟩ := List.mem_map.1 hl
    exact mem_xmlquoteChar c x hxl
  refine ⟨fun h => (hmem _ h).1 rfl, fun h => (hmem _ h).2.1 rfl, fun h => (hmem _ h).2.2 rfl,
    ?_, ?_⟩
  · intro pre post h
    rw [xmlquote_data_of_nul_free s h0] at h
    exact entity_after_amp s.data pre post h
  · intro NDEBUG xml attrName ht
    simp [writeAttr_eq, ht]

theorem xmlquote_no_markup_witness :
    xmlquote "\"><x y=\"&" = "&quot;&gt;&lt;x y=&quot;&amp;"
    ∧ '"' ∉ (xmlquote "\"><x y=\"&").data :=
  ⟨by decide, (xmlquote_no_markup "\"><x y=\"&" (by decide)).2.2.1⟩

/-- Claim C19 fails as stated: the string `NUL`, `"`, `>`, `<` is returned by `xmlquote` as it
is, with its double quote, its `>` and its `<`. -/
theorem xmlquote_markup_counterexample :
    xmlquote (String.mk [NUL, '"', '>', '<']) = String.mk [NUL, '"', '>', '<']
    ∧ '<' ∈ (xmlquote (String.mk [NUL, '"', '>', '<'])).data
    ∧ '>' ∈ (xmlquote (String.mk [NUL, '"', '>', '<'])).data
    ∧ '"' ∈ (xmlquote (String.mk [NUL, '"', '>', '<'])).data := by
  decide

/-! ## The source module of a connection -/

theorem srcmod_of_mem_linksOf (srcmod : cModule) (type : GateType) (conn : Connection)
    (h : conn ∈ linksOf srcmod type) : conn.srcmod = srcmod := by
  unfold linksOf at h
  rw [List.mem_filterMap] at h
  obtain ⟨gate, _, hg⟩ := h
  split_ifs at hg
  · cases hn : gate.nextGate with
    | none => simp [hn] at hg
    | some d =>
      simp only [hn, Option.map_some', Option.some.injEq] at hg
      rw [← hg]

theorem filter_src_connectionAttrs (mod : cModule) (conn : Connection) :
    (connectionAttrs mod conn).filter (fun a => a.1 = "src-module")
      = endAttr "src-module" mod.id conn.srcmod.id conn.srcmod.parentModule
          conn.srcmod.fullName conn.srcmod.fullPath := by
  unfold connectionAttrs endAttr
  split_ifs <;> simp [List.filter_cons]

/-- Claim C20: when every submodule of `mod` is another object than `mod` and has `mod` as
its parent, the attribute `src-module` of the `connection` elements written while `mod` is
dumped is never a full path: it is the short name of the submodule for every link of pass 1,
and it is left out for every link of pass 2. -/
theorem src_module_never_full_path (sys : Nat) (mod : cModule)
    (h : ∀ s ∈ mod.submodules, s.id ≠ mod.id ∧ s.parentModule = some mod.id) :
    ∃ e c, parseCalls (dumpComponent sys (.module mod)) = some [e]
      ∧ e.children.filter (fun x => x.name = "connections") = [c]
      ∧ c.children.map (fun x => x.attrs.filter (fun a => a.1 = "src-module"))
          = (mod.submodules.flatMap (fun s =>
                (linksOf s GateType.OUTPUT).map (fun _ => [("src-module", s.fullName)])))
            ++ (linksOf mod GateType.INPUT).map (fun _ => []) := by
  refine ⟨moduleElement sys mod, connectionsElement mod, parseCalls_dumpComponent sys _,
    moduleElement_connections sys mod, ?_⟩
  simp only [connectionsElement, Element.children, connectionsOf, List.map_append, List.map_map]
  congr 1
  · have hsub : ∀ subs : List cModule,
        (∀ s ∈ subs, s.id ≠ mod.id ∧ s.parentModule = some mod.id) →
        List.map ((fun x => x.attrs.filter (fun a => a.1 = "src-module"))
              ∘ connectionElement mod)
            (subs.flatMap (fun srcmod => linksOf srcmod GateType.OUTPUT))
          = subs.flatMap (fun s =>
              (linksOf s GateType.OUTPUT).map (fun _ => [("src-module", s.fullName)])) := by
      intro subs
      induction subs with
      | nil => intro _; simp
      | cons s rest ih =>
        intro hs
        simp only [List.flatMap_cons, List.map_append]
        rw [ih (fun x hx => hs x (List.mem_cons_of_mem _ hx))]
        congr 1
        apply List.map_congr_left
        intro conn hconn
        have hsrc := srcmod_of_mem_linksOf s _ conn hconn
        obtain ⟨h1, h2⟩ := hs s (List.mem_cons_self _ _)
        simp [connectionElement, Element.attrs, filter_src_connectionAttrs, endAttr, hsrc, h1,
          h2]
    exact hsub mod.submodules h
  · apply List.map_congr_left
    intro conn hconn
    have hsrc := srcmod_of_mem_linksOf mod _ conn hconn
    simp [connectionElement, Element.attrs, filter_src_connectionAttrs, endAttr, hsrc]

theorem src_module_never_full_path_witness :
    (∀ s ∈ farLink.submodules, s.id ≠ farLink.id ∧ s.parentModule = some farLink.id)
    ∧ (∃ e c, parseCalls (dumpComponent 0 (.module farLink)) = some [e]
        ∧ e.children.filter (fun x => x.name = "connections") = [c]
        ∧ c.children.map (fun x => x.attrs.filter (fun a => a.1 = "src-module"))
            = [[("src-module", "s")]])
    ∧ XMLCall.writeAttr "dest-module" "Net.x.y" ∈ dumpComponent 0 (.module farLink) := by
  have hyp : ∀ s ∈ farLink.submodules, s.id ≠ farLink.id ∧ s.parentModule = some farLink.id := by
    intro s hs
    simp only [farLink, cModule.submodules, List.mem_singleton] at hs
    subst hs
    exact ⟨by decide, rfl⟩
  refine ⟨hyp, ?_, by decide⟩
  obtain ⟨e, c, h1, h2, h3⟩ := src_module_never_full_path 0 farLink hyp
  exact ⟨e, c, h1, h2, h3⟩

/-! ## The connection elements, module by module -/

theorem moduleConnectionsList_append (a b : List Element) :
    Element.moduleConnectionsList (a ++ b)
      = Element.moduleConnectionsList a ++ Element.moduleConnectionsList b := by
  induction a with
  | nil => simp [Element.moduleConnectionsList]
  | cons e es ih => simp [Element.moduleConnectionsList, ih]

theorem moduleConnections_of_other (name : String) (attrs : List (String × String))
    (children : List Element) (h : ¬ (name = "network" ∨ name = "module")) :
    Element.moduleConnections (.mk name attrs children)
      = Element.moduleConnectionsList children := by
  rw [Element.moduleConnections, if_neg h, List.nil_append]

theorem moduleConnectionsList_singleton (e : Element) :
    Element.moduleConnectionsList [e] = Element.moduleConnections e := by
  simp [Element.moduleConnectionsList]

theorem moduleConnectionsList_properties (props : List cProperty) :
    Element.moduleConnectionsList (props.map propertyElement) = [] := by
  induction props with
  | nil => simp [Element.moduleConnectionsList]
  | cons p rest ih =>
    rw [List.map_cons, Element.moduleConnectionsList, ih, propertyElement,
      moduleConnections_of_other _ _ _ (by decide)]
    simp [Element.moduleConnectionsList]

theorem moduleConnectionsList_params (params : List cPar) :
    Element.moduleConnectionsList (params.map paramElement) = [] := by
  induction params with
  | nil => simp [Element.moduleConnectionsList]
  | cons p rest ih =>
    rw [List.map_cons, Element.moduleConnectionsList, ih, paramElement,
      moduleConnections_of_other _ _ _ (by decide), moduleConnectionsList_properties]
    rfl

theorem moduleConnectionsList_parameters (params : List cPar) (props : List cProperty) :
    Element.moduleConnectionsList (parametersElements params props) = [] := by
  unfold parametersElements
  split_ifs
  · simp [Element.moduleConnectionsList]
  · rw [moduleConnectionsList_singleton, moduleConnections_of_other _ _ _ (by decide),
      moduleConnectionsList_append, moduleConnectionsList_properties,
      moduleConnectionsList_params]
    rfl

theorem moduleConnections_channel (ch : cChannel) :
    Element.moduleConnections (channelElement ch) = [] := by
  rw [channelElement, moduleConnections_of_other _ _ _ (by decide),
    moduleConnectionsList_parameters]

theorem moduleConnectionsList_gates (gates : List cGate) :
    Element.moduleConnectionsList (gatesElements gates) = [] := by
  have hl : ∀ gs : List cGate, Element.moduleConnectionsList (gs.map gateElement) = [] := by
    intro gs
    induction gs with
    | nil => simp [Element.moduleConnectionsList]
    | cons g rest ih =>
      rw [List.map_cons, Element.moduleConnectionsList, ih, gateElement,
        moduleConnections_of_other _ _ _ (by decide), moduleConnectionsList_properties]
      rfl
  unfold gatesElements
  split_ifs
  · simp [Element.moduleConnectionsList]
  · rw [moduleConnectionsList_singleton, moduleConnections_of_other _ _ _ (by decide), hl]

theorem moduleConnections_connections (mod : cModule) :
    Element.moduleConnections (connectionsElement mod) = [] := by
  have hl : ∀ cs : List Connection,
      Element.moduleConnectionsList (cs.map (connectionElement mod)) = [] := by
    intro cs
    induction cs with
    | nil => simp [Element.moduleConnectionsList]
    | cons c rest ih =>
      rw [List.map_cons, Element.moduleConnectionsList, ih, connectionElement,
        moduleConnections_of_other _ _ _ (by decide)]
      cases hc : c.srcgate.channel with
      | none => simp [Element.moduleConnectionsList]
      | some ch =>
        simp only [moduleConnectionsList_singleton, moduleConnections_channel, List.append_nil]
  rw [connectionsElement, moduleConnections_of_other _ _ _ (by decide), hl]

theorem connectionsElement_children (mod : cModule) :
    (connectionsElement mod).children = (connectionsOf mod).map (connectionElement mod) := rfl

mutual

theorem moduleConnections_module (sys : Nat) :
    ∀ mod : cModule,
      Element.moduleConnections (moduleElement sys mod)
        = (allModules mod).map (fun m =>
            ([("name", m.fullName), ("type", m.nedTypeName)],
              (connectionsOf m).map (connectionElement m)))
  | .mk id parentModule fullName fullPath nedTypeName params properties gates submodules => by
    have ih := moduleConnectionsList_modules sys submodules
    have htag : ((if id = sys then "network" else "module") : String) = "network"
        ∨ ((if id = sys then "network" else "module") : String) = "module" := by
      split_ifs
      · exact Or.inl rfl
      · exact Or.inr rfl
    have hconn := moduleElement_connections sys
      (.mk id parentModule fullName fullPath nedTypeName params properties gates submodules)
    have hsub : Element.moduleConnectionsList
        (if submodules.isEmpty then []
          else [Element.mk "submodules" [] (moduleElements sys submodules)])
        = Element.moduleConnectionsList (moduleElements sys submodules) := by
      cases submodules with
      | nil => rfl
      | cons s rest =>
        rw [List.isEmpty_cons, if_neg (by simp), moduleConnectionsList_singleton,
          moduleConnections_of_other _ _ _ (by decide)]
    rw [moduleElement_eq] at hconn ⊢
    simp only [Element.children, cModule.id, cModule.fullName, cModule.nedTypeName,
      cModule.params, cModule.properties, cModule.gates, cModule.submodules] at hconn ⊢
    rw [Element.moduleConnections, if_pos htag, hconn]
    rw [moduleConnectionsList_append, moduleConnectionsList_append,
      moduleConnectionsList_append, moduleConnectionsList_parameters,
      moduleConnectionsList_gates, hsub, ih, moduleConnectionsList_singleton,
      moduleConnections_connections]
    simp [allModules, connectionsElement_children, cModule.fullName, cModule.nedTypeName]

theorem moduleConnectionsList_modules (sys : Nat) :
    ∀ subs : List cModule,
      Element.moduleConnectionsList (moduleElements sys subs)
        = (allModulesList subs).map (fun m =>
            ([("name", m.fullName), ("type", m.nedTypeName)],
              (connectionsOf m).map (connectionElement m)))
  | [] => by simp [moduleElements, Element.moduleConnectionsList, allModulesList]
  | s :: rest => by
    simp [moduleElements, Element.moduleConnectionsList, allModulesList,
      moduleConnections_module sys s, moduleConnectionsList_modules sys rest]

end

end TopologyExporter
